import Mathlib

/-!
Verification of the arc-length core of SplineLibrary (`spline_library/arclength.h`).

The file shallowly embeds the three entry points of the `ArcLength` namespace
(`solveLength`, `partition`, `partitionN`) and the private `solveSegment` helper
over exact rational arithmetic.  The spline classes themselves are external
collaborators of this core (they are not part of `src/`), so the `Curve`
interface below is modelled from the specification's §6 contract; the numerical
root finder `boost::math::tools::halley_iterate` is third-party code, modelled
from the specification's §4.1 guarantee (bracketed to `[aPercent, 1]`,
converging to the local fraction whose segment arc length equals the target).
-/

/-- Modelled from the spec: the Curve collaborator of §6.  The spline classes
are not part of this core's sources; the interface carries exactly the
operations the arc-length algorithms consume.  `segmentSolve i a d` is the
local fraction that the (third-party, spec-modelled) Halley iteration of
`solveSegment` converges to: the fraction `b` with
`segmentArcLength i a b = d`.  The `WellFormed` predicate below states the
contracts §6 imposes on these fields. -/
structure Curve where
  segmentCount : ℕ
  segmentT : ℕ → ℚ
  segmentForT : ℚ → ℕ
  segmentArcLength : ℕ → ℚ → ℚ → ℚ
  getMaxT : ℚ
  segmentSolve : ℕ → ℚ → ℚ → ℚ

/-- Contracts of the Curve collaborator, from §6 of the specification:
segment parameter ranges partition `[0, maxT]` contiguously and monotonically,
`segmentArcLength` is additive and monotone in its upper fraction,
`segmentForT` localizes a global parameter, and `segmentSolve` (the root the
Segment Solver's iteration converges to, §4.1) solves the segment arc-length
equation inside `[aPercent, 1]` whenever a root exists there. -/
structure Curve.WellFormed (c : Curve) : Prop where
  segments_pos : 0 < c.segmentCount
  segmentT_zero : c.segmentT 0 = 0
  segmentT_max : c.segmentT c.segmentCount = c.getMaxT
  segmentT_step : ∀ i, i < c.segmentCount → c.segmentT i < c.segmentT (i + 1)
  arcLength_sub : ∀ i, i < c.segmentCount → ∀ a b : ℚ,
    c.segmentArcLength i a b = c.segmentArcLength i 0 b - c.segmentArcLength i 0 a
  arcLength_mono : ∀ i, i < c.segmentCount → ∀ a b : ℚ,
    0 ≤ a → a ≤ b → b ≤ 1 → c.segmentArcLength i 0 a ≤ c.segmentArcLength i 0 b
  segmentForT_spec : ∀ t : ℚ, 0 ≤ t → t ≤ c.getMaxT →
    c.segmentForT t < c.segmentCount ∧
    c.segmentT (c.segmentForT t) ≤ t ∧ t ≤ c.segmentT (c.segmentForT t + 1)
  segmentSolve_spec : ∀ i, i < c.segmentCount → ∀ a d : ℚ,
    0 ≤ a → a ≤ 1 → 0 ≤ d → d ≤ c.segmentArcLength i a 1 →
    a ≤ c.segmentSolve i a d ∧ c.segmentSolve i a d ≤ 1 ∧
    c.segmentArcLength i a (c.segmentSolve i a d) = d

namespace ArcLengthSolvePrivate

/-- Modelled from the spec: `solveSegment` (arclength.h lines 11-38) computes
its answer with `boost::math::tools::halley_iterate`, third-party code that is
not part of this repository.  Per §4.1 the iteration is bracketed to
`[aPercent, 1]` so it cannot escape the segment, and converges to the local
fraction where the segment arc length from `aPercent` equals `desiredLength`;
`maxLength` only seeds the initial guess and does not affect the converged
value.  We model the returned value as the curve-supplied exact root,
clamped to the bracket. -/
def solveSegment (spline : Curve) (segmentIndex : ℕ)
    (desiredLength maxLength aPercent : ℚ) : ℚ :=
  let _ := maxLength
  min 1 (max aPercent (spline.segmentSolve segmentIndex aPercent desiredLength))

end ArcLengthSolvePrivate

namespace ArcLength

/-- State of `solveLength`'s segment scan (arclength.h lines 48-77):
the candidate segment index, the remaining desired length, and the most
recently computed segment length. -/
structure ScanState where
  bIndex : ℕ
  desiredLength : ℚ
  bLength : ℚ

/-- The scan loop of `solveLength` (arclength.h lines 64-76):
`while(++bIndex < spline.segmentCount()) { bLength = segmentArcLength(bIndex,0,1);
if (bLength < desiredLength) desiredLength -= bLength; else break; }`. -/
def scanLoop (spline : Curve) (bIndex : ℕ) (desiredLength bLength : ℚ) : ScanState :=
  if h : bIndex + 1 < spline.segmentCount then
    if spline.segmentArcLength (bIndex + 1) 0 1 < desiredLength then
      scanLoop spline (bIndex + 1)
        (desiredLength - spline.segmentArcLength (bIndex + 1) 0 1)
        (spline.segmentArcLength (bIndex + 1) 0 1)
    else
      ⟨bIndex + 1, desiredLength, spline.segmentArcLength (bIndex + 1) 0 1⟩
  else
    ⟨bIndex + 1, desiredLength, bLength⟩
termination_by spline.segmentCount - bIndex
decreasing_by simp_wf; omega

/-- `ArcLength::solveLength` (arclength.h lines 44-90): compute `b` such that
the arc length from `a` to `b` equals `desiredLength`, returning `getMaxT()`
when the scan exhausts all segments. -/
def solveLength (spline : Curve) (a desiredLength : ℚ) : ℚ :=
  let aIndex := spline.segmentForT a
  let aBegin := spline.segmentT aIndex
  let aEnd := spline.segmentT (aIndex + 1)
  let aPercent := (a - aBegin) / (aEnd - aBegin)
  let aLength := spline.segmentArcLength aIndex aPercent 1
  let st : ℕ × ℚ × ℚ × ℚ :=
    if aLength < desiredLength then
      let s := scanLoop spline aIndex (desiredLength - aLength) aLength
      (s.bIndex, s.desiredLength, s.bLength, 0)
    else
      (aIndex, desiredLength, aLength, aPercent)
  if st.1 = spline.segmentCount then
    spline.getMaxT
  else
    let bPercent := ArcLengthSolvePrivate.solveSegment spline st.1 st.2.1 st.2.2.1 st.2.2.2
    let bBegin := spline.segmentT st.1
    let bEnd := spline.segmentT (st.1 + 1)
    bBegin + bPercent * (bEnd - bBegin)

/-- Instrumented mirror of `solveLength` returning the segment index that the
scan settles on (the `bIndex` of arclength.h line 85, or `segmentCount` when
the scan exhausts the spline). -/
def solveLengthSegment (spline : Curve) (a desiredLength : ℚ) : ℕ :=
  let aIndex := spline.segmentForT a
  let aBegin := spline.segmentT aIndex
  let aEnd := spline.segmentT (aIndex + 1)
  let aPercent := (a - aBegin) / (aEnd - aBegin)
  let aLength := spline.segmentArcLength aIndex aPercent 1
  if aLength < desiredLength then
    (scanLoop spline aIndex (desiredLength - aLength) aLength).bIndex
  else
    aIndex

/-- Instrumented mirror of `solveLength` counting how many times the Segment
Solver (`solveSegment`, arclength.h line 85) is invoked during the call:
zero on the saturating path (line 81), one otherwise. -/
def solveLengthSolverCalls (spline : Curve) (a desiredLength : ℚ) : ℕ :=
  if solveLengthSegment spline a desiredLength = spline.segmentCount then 0 else 1

/-- Number of iterations executed by the scan loop of `solveLength`
(arclength.h lines 64-76); the break iteration counts as one. -/
def scanSteps (spline : Curve) (bIndex : ℕ) (desiredLength : ℚ) : ℕ :=
  if h : bIndex + 1 < spline.segmentCount then
    if spline.segmentArcLength (bIndex + 1) 0 1 < desiredLength then
      scanSteps spline (bIndex + 1)
        (desiredLength - spline.segmentArcLength (bIndex + 1) 0 1) + 1
    else
      1
  else
    0
termination_by spline.segmentCount - bIndex
decreasing_by simp_wf; omega

/-- The per-segment length table of `partition`/`partitionN`
(arclength.h lines 101-108 and 163-170): each segment's full-range arc length
`segmentArcLength(i, 0, 1)` is computed exactly once, in index order. -/
def segmentLengths (spline : Curve) : List ℚ :=
  (List.range spline.segmentCount).map (fun i => spline.segmentArcLength i 0 1)

/-- Total arc length accumulated alongside the segment length table
(arclength.h lines 102-108). -/
def totalArcLength (spline : Curve) : ℚ :=
  (segmentLengths spline).sum

/-- The inner scan of the partition loops (arclength.h lines 125-129 and
191-195): `while(segmentRemainder < desiredLength) { desiredLength -=
segmentRemainder; segmentRemainder = segmentLengths[++bIndex]; }`.  Reading
past the end of the table is undefined behaviour in the C++ (and is proved
unreachable for well-formed inputs below); the model stops there with a zero
remainder. -/
def consume (segmentLengths : List ℚ) (bIndex : ℕ)
    (desiredLength segmentRemainder : ℚ) : ℕ × ℚ × ℚ :=
  if segmentRemainder < desiredLength then
    if h : bIndex + 1 < segmentLengths.length then
      consume segmentLengths (bIndex + 1) (desiredLength - segmentRemainder)
        (segmentLengths.get ⟨bIndex + 1, h⟩)
    else
      (bIndex + 1, desiredLength - segmentRemainder, 0)
  else
    (bIndex, desiredLength, segmentRemainder)
termination_by segmentLengths.length - bIndex
decreasing_by simp_wf; omega

/-- Number of iterations executed by `consume` (the inner while of the
partition loops); the out-of-range step counts as one. -/
def consumeSteps (segmentLengths : List ℚ) (bIndex : ℕ)
    (desiredLength segmentRemainder : ℚ) : ℕ :=
  if segmentRemainder < desiredLength then
    if h : bIndex + 1 < segmentLengths.length then
      consumeSteps segmentLengths (bIndex + 1) (desiredLength - segmentRemainder)
        (segmentLengths.get ⟨bIndex + 1, h⟩) + 1
    else
      1
  else
    0
termination_by segmentLengths.length - bIndex
decreasing_by simp_wf; omega

/-- The shared boundary-placing loop of `partition` (arclength.h lines
118-152, with `stop = pieces.size()`) and `partitionN` (lines 184-219, with
`stop = n`): for each boundary index `i` in `[1, stop)`, consume
`lengthPerPiece` of arc length through the precomputed table, delegate once to
the Segment Solver, store the boundary, and carry the remainder state over. -/
def partitionLoop (spline : Curve) (segLens : List ℚ) (lengthPerPiece : ℚ)
    (stop : ℕ) (pieces : List ℚ) (i : ℕ)
    (segmentRemainder previousPercent : ℚ) (aIndex : ℕ) : List ℚ :=
  if h : i < stop then
    let s := consume segLens aIndex lengthPerPiece segmentRemainder
    let bIndex := s.1
    let desiredLength := s.2.1
    let segmentRemainder' := s.2.2
    let aPercent := if aIndex = bIndex then previousPercent else 0
    let bPercent := ArcLengthSolvePrivate.solveSegment spline bIndex desiredLength
      segmentRemainder' aPercent
    let bBegin := spline.segmentT bIndex
    let bEnd := spline.segmentT (bIndex + 1)
    partitionLoop spline segLens lengthPerPiece stop
      (pieces.set i (bBegin + bPercent * (bEnd - bBegin))) (i + 1)
      (segmentRemainder' - desiredLength) bPercent bIndex
  else
    pieces
termination_by stop - i
decreasing_by simp_wf; omega

/-- Instrumented mirror of `partitionLoop` recording the segment index the
consume scan settles on at each boundary, in order. -/
def partitionLoopIndexTrace (spline : Curve) (segLens : List ℚ)
    (lengthPerPiece : ℚ) (stop i : ℕ)
    (segmentRemainder previousPercent : ℚ) (aIndex : ℕ) : List ℕ :=
  if h : i < stop then
    let s := consume segLens aIndex lengthPerPiece segmentRemainder
    let bIndex := s.1
    let desiredLength := s.2.1
    let segmentRemainder' := s.2.2
    let aPercent := if aIndex = bIndex then previousPercent else 0
    let bPercent := ArcLengthSolvePrivate.solveSegment spline bIndex desiredLength
      segmentRemainder' aPercent
    bIndex :: partitionLoopIndexTrace spline segLens lengthPerPiece stop (i + 1)
      (segmentRemainder' - desiredLength) bPercent bIndex
  else
    []
termination_by stop - i
decreasing_by simp_wf; omega

/-- Instrumented mirror of `partitionLoop` counting Segment Solver
invocations (one per executed boundary iteration). -/
def partitionLoopSolverCalls (stop i : ℕ) : ℕ :=
  if h : i < stop then
    partitionLoopSolverCalls stop (i + 1) + 1
  else
    0
termination_by stop - i
decreasing_by simp_wf; omega

/-- `ArcLength::partition` (arclength.h lines 97-154): subdivide the spline
into pieces of arc length `lengthPerPiece`; the output vector holds
`size_t(totalArcLength / lengthPerPiece) + 1` entries, is value-initialized to
zero (so entry 0 stays 0), and the loop fills entries `1..` in place. -/
def partition (spline : Curve) (lengthPerPiece : ℚ) : List ℚ :=
  let segLens := segmentLengths spline
  let total := segLens.sum
  let pieces : List ℚ := List.replicate ((total / lengthPerPiece).floor.toNat + 1) 0
  partitionLoop spline segLens lengthPerPiece pieces.length pieces 1
    (segLens.getD 0 0) 0 0

/-- Segment-index trace of a `partition` call: the starting cursor 0 followed
by the segment index settled on at each boundary. -/
def partitionIndexTrace (spline : Curve) (lengthPerPiece : ℚ) : List ℕ :=
  let segLens := segmentLengths spline
  let total := segLens.sum
  let numPieces := (total / lengthPerPiece).floor.toNat + 1
  0 :: partitionLoopIndexTrace spline segLens lengthPerPiece numPieces 1
    (segLens.getD 0 0) 0 0

/-- Number of Segment Solver invocations made by a `partition` call. -/
def partitionSolverCalls (spline : Curve) (lengthPerPiece : ℚ) : ℕ :=
  let segLens := segmentLengths spline
  let total := segLens.sum
  let numPieces := (total / lengthPerPiece).floor.toNat + 1
  partitionLoopSolverCalls numPieces 1

/-- `ArcLength::partitionN` (arclength.h lines 159-221): subdivide the spline
into `n` equal arc-length pieces; entries 0 and `n` are fixed to `0` and
`getMaxT()` explicitly, the loop fills entries `1..n-1`. -/
def partitionN (spline : Curve) (n : ℕ) : List ℚ :=
  let segLens := segmentLengths spline
  let total := segLens.sum
  let lengthPerPiece := total / (n : ℚ)
  let pieces : List ℚ := ((List.replicate (n + 1) 0).set 0 0).set n spline.getMaxT
  partitionLoop spline segLens lengthPerPiece n pieces 1
    (segLens.getD 0 0) 0 0

/-- Segment-index trace of a `partitionN` call. -/
def partitionNIndexTrace (spline : Curve) (n : ℕ) : List ℕ :=
  let segLens := segmentLengths spline
  let total := segLens.sum
  let lengthPerPiece := total / (n : ℚ)
  0 :: partitionLoopIndexTrace spline segLens lengthPerPiece n 1
    (segLens.getD 0 0) 0 0

/-- The Segment Solver's static iteration cap (arclength.h line 37):
`int(std::numeric_limits<floating_t>::digits * 0.5)`, i.e. half the mantissa
bit-width of the floating-point type, truncated. -/
def halleyIterationBound (digits : ℕ) : ℕ := digits / 2

end ArcLength

/-- Sum of the full-range lengths of the first `i` segments. -/
def sumLens (c : Curve) : ℕ → ℚ
  | 0 => 0
  | i + 1 => sumLens c i + c.segmentArcLength i 0 1

/-- Global parameter of local fraction `p` within segment `i`
(the `bBegin + bPercent * (bEnd - bBegin)` of arclength.h). -/
def paramOf (c : Curve) (i : ℕ) (p : ℚ) : ℚ :=
  c.segmentT i + p * (c.segmentT (i + 1) - c.segmentT i)

/-- Cumulative arc length from the start of the curve to local fraction `p`
of segment `i`. -/
def cum (c : Curve) (i : ℕ) (p : ℚ) : ℚ :=
  sumLens c i + c.segmentArcLength i 0 p

/-- Local fraction of global parameter `t` within its segment
(the `(a - aBegin) / (aEnd - aBegin)` of arclength.h line 52). -/
def localPercent (c : Curve) (t : ℚ) : ℚ :=
  (t - c.segmentT (c.segmentForT t)) /
    (c.segmentT (c.segmentForT t + 1) - c.segmentT (c.segmentForT t))

/-- Arc length of the curve from parameter 0 to parameter `t`. -/
def arcToT (c : Curve) (t : ℚ) : ℚ :=
  cum c (c.segmentForT t) (localPercent c t)

/-- Arc length of the curve between parameters `a` and `b`. -/
def arcLengthBetween (c : Curve) (a b : ℚ) : ℚ :=
  arcToT c b - arcToT c a

/-- Arc length remaining along the curve beyond parameter `a`. -/
def arcRemaining (c : Curve) (a : ℚ) : ℚ :=
  ArcLength.totalArcLength c - arcToT c a

/-- The two-segment demonstration curve of the specification's §8 scenario:
`maxT = 2`, `segmentT = [0, 1, 2]`, segment 0 of length 3 and segment 1 of
length 7, each traversed at constant speed. -/
def demoCurve : Curve where
  segmentCount := 2
  segmentT := fun i => (i : ℚ)
  segmentForT := fun t => if t < 1 then 0 else 1
  segmentArcLength := fun i a b => (if i = 0 then 3 else 7) * (b - a)
  getMaxT := 2
  segmentSolve := fun i a d => a + d / (if i = 0 then 3 else 7)

/-- A one-segment straight line of length 10 over `t ∈ [0, 1]`
(the first §8 scenario). -/
def lineCurve : Curve where
  segmentCount := 1
  segmentT := fun i => (i : ℚ)
  segmentForT := fun _ => 0
  segmentArcLength := fun _ a b => 10 * (b - a)
  getMaxT := 1
  segmentSolve := fun _ a d => a + d / 10

/-! ### Basic consequences of well-formedness -/

theorem Curve.WellFormed.arcLength_self {c : Curve} (wf : c.WellFormed)
    (i : ℕ) (hi : i < c.segmentCount) (a : ℚ) :
    c.segmentArcLength i a a = 0 := by
  have h := wf.arcLength_sub i hi a a
  simpa using h

theorem Curve.WellFormed.arcLength_nonneg {c : Curve} (wf : c.WellFormed)
    (i : ℕ) (hi : i < c.segmentCount) {a b : ℚ}
    (h0 : 0 ≤ a) (hab : a ≤ b) (h1 : b ≤ 1) :
    0 ≤ c.segmentArcLength i a b := by
  have h := wf.arcLength_sub i hi a b
  have hm := wf.arcLength_mono i hi a b h0 hab h1
  linarith

theorem Curve.WellFormed.arcLength_zero_nonneg {c : Curve} (wf : c.WellFormed)
    (i : ℕ) (hi : i < c.segmentCount) {p : ℚ}
    (h0 : 0 ≤ p) (h1 : p ≤ 1) :
    0 ≤ c.segmentArcLength i 0 p :=
  wf.arcLength_nonneg i hi le_rfl h0 h1

theorem Curve.WellFormed.arcLength_split {c : Curve} (wf : c.WellFormed)
    (i : ℕ) (hi : i < c.segmentCount) (a b d : ℚ) :
    c.segmentArcLength i a b + c.segmentArcLength i b d = c.segmentArcLength i a d := by
  rw [wf.arcLength_sub i hi a b, wf.arcLength_sub i hi b d, wf.arcLength_sub i hi a d]
  ring

theorem Curve.WellFormed.segmentT_lt {c : Curve} (wf : c.WellFormed)
    {i j : ℕ} (hij : i < j) (hj : j ≤ c.segmentCount) :
    c.segmentT i < c.segmentT j := by
  induction j with
  | zero => omega
  | succ j ih =>
    rcases Nat.lt_succ_iff_lt_or_eq.mp hij with h | h
    · exact lt_trans (ih h (by omega)) (wf.segmentT_step j (by omega))
    · subst h; exact wf.segmentT_step i (by omega)

theorem Curve.WellFormed.segmentT_le {c : Curve} (wf : c.WellFormed)
    {i j : ℕ} (hij : i ≤ j) (hj : j ≤ c.segmentCount) :
    c.segmentT i ≤ c.segmentT j := by
  rcases eq_or_lt_of_le hij with h | h
  · subst h; exact le_rfl
  · exact le_of_lt (wf.segmentT_lt h hj)

theorem Curve.WellFormed.segmentT_nonneg {c : Curve} (wf : c.WellFormed)
    {i : ℕ} (hi : i ≤ c.segmentCount) : 0 ≤ c.segmentT i := by
  have h := wf.segmentT_le (Nat.zero_le i) hi
  rw [wf.segmentT_zero] at h
  exact h

theorem Curve.WellFormed.segmentT_le_maxT {c : Curve} (wf : c.WellFormed)
    {i : ℕ} (hi : i ≤ c.segmentCount) :
    c.segmentT i ≤ c.getMaxT := by
  have h := wf.segmentT_le hi le_rfl
  rw [wf.segmentT_max] at h
  exact h

theorem Curve.WellFormed.segmentT_inj {c : Curve} (wf : c.WellFormed)
    {i j : ℕ} (hi : i ≤ c.segmentCount) (hj : j ≤ c.segmentCount)
    (h : c.segmentT i = c.segmentT j) : i = j := by
  rcases Nat.lt_trichotomy i j with hlt | heq | hgt
  · exact absurd h (ne_of_lt (wf.segmentT_lt hlt hj))
  · exact heq
  · exact absurd h.symm (ne_of_lt (wf.segmentT_lt hgt hi))

/-! ### The segment length table and cumulative sums -/

theorem segmentLengths_length (c : Curve) :
    (ArcLength.segmentLengths c).length = c.segmentCount := by
  simp [ArcLength.segmentLengths]

theorem segmentLengths_get (c : Curve) (i : ℕ)
    (h : i < (ArcLength.segmentLengths c).length) :
    (ArcLength.segmentLengths c).get ⟨i, h⟩ = c.segmentArcLength i 0 1 := by
  simp [ArcLength.segmentLengths]

theorem segmentLengths_getD (c : Curve) (i : ℕ) (hi : i < c.segmentCount) :
    (ArcLength.segmentLengths c).getD i 0 = c.segmentArcLength i 0 1 := by
  rw [List.getD_eq_getElem?_getD, List.getElem?_eq_getElem
    (by rw [segmentLengths_length]; exact hi)]
  simp [ArcLength.segmentLengths]

theorem sumLens_sub_range (c : Curve) (n : ℕ) :
    ((List.range n).map (fun i => c.segmentArcLength i 0 1)).sum = sumLens c n := by
  induction n with
  | zero => simp [sumLens]
  | succ n ih =>
    rw [List.range_succ, List.map_append, List.sum_append]
    simp [sumLens, ih]

theorem totalArcLength_eq_sumLens (c : Curve) :
    ArcLength.totalArcLength c = sumLens c c.segmentCount := by
  rw [ArcLength.totalArcLength, ArcLength.segmentLengths, sumLens_sub_range]

theorem sumLens_le {c : Curve} (wf : c.WellFormed) {i j : ℕ} (hij : i ≤ j)
    (hj : j ≤ c.segmentCount) : sumLens c i ≤ sumLens c j := by
  induction j with
  | zero =>
    have h : i = 0 := Nat.le_zero.mp hij
    subst h; exact le_rfl
  | succ j ih =>
    rcases Nat.lt_succ_iff_lt_or_eq.mp (Nat.lt_succ_of_le hij) with h | h
    · have h1 : sumLens c i ≤ sumLens c j := ih (by omega) (by omega)
      have h2 : 0 ≤ c.segmentArcLength j 0 1 :=
        wf.arcLength_zero_nonneg j (by omega) (by norm_num) (by norm_num)
      show sumLens c i ≤ sumLens c j + c.segmentArcLength j 0 1
      linarith
    · subst h; exact le_rfl

theorem sumLens_nonneg {c : Curve} (wf : c.WellFormed) {i : ℕ}
    (hi : i ≤ c.segmentCount) : 0 ≤ sumLens c i := by
  have h := sumLens_le wf (Nat.zero_le i) hi
  simpa [sumLens] using h

theorem totalArcLength_nonneg {c : Curve} (wf : c.WellFormed) :
    0 ≤ ArcLength.totalArcLength c := by
  rw [totalArcLength_eq_sumLens]
  exact sumLens_nonneg wf le_rfl

/-! ### Localization: `localPercent`, `paramOf`, `arcToT` -/

theorem localPercent_bounds {c : Curve} (wf : c.WellFormed) {t : ℚ}
    (h0 : 0 ≤ t) (h1 : t ≤ c.getMaxT) :
    0 ≤ localPercent c t ∧ localPercent c t ≤ 1 := by
  obtain ⟨hj, hlo, hhi⟩ := wf.segmentForT_spec t h0 h1
  have hstep := wf.segmentT_step (c.segmentForT t) hj
  unfold localPercent
  constructor
  · exact div_nonneg (by linarith) (by linarith)
  · rw [div_le_one (by linarith)]
    linarith

theorem paramOf_localPercent {c : Curve} (wf : c.WellFormed) {t : ℚ}
    (h0 : 0 ≤ t) (h1 : t ≤ c.getMaxT) :
    paramOf c (c.segmentForT t) (localPercent c t) = t := by
  obtain ⟨hj, _, _⟩ := wf.segmentForT_spec t h0 h1
  have hstep := wf.segmentT_step (c.segmentForT t) hj
  have hne : c.segmentT (c.segmentForT t + 1) - c.segmentT (c.segmentForT t) ≠ 0 := by
    linarith
  unfold paramOf localPercent
  field_simp

theorem paramOf_bounds {c : Curve} (wf : c.WellFormed) {i : ℕ}
    (hi : i < c.segmentCount) {p : ℚ} (h0 : 0 ≤ p) (h1 : p ≤ 1) :
    c.segmentT i ≤ paramOf c i p ∧ paramOf c i p ≤ c.segmentT (i + 1) := by
  have hstep := wf.segmentT_step i hi
  unfold paramOf
  constructor
  · nlinarith
  · nlinarith

theorem paramOf_mem {c : Curve} (wf : c.WellFormed) {i : ℕ}
    (hi : i < c.segmentCount) {p : ℚ} (h0 : 0 ≤ p) (h1 : p ≤ 1) :
    0 ≤ paramOf c i p ∧ paramOf c i p ≤ c.getMaxT := by
  obtain ⟨hl, hr⟩ := paramOf_bounds wf hi h0 h1
  have hn : 0 ≤ c.segmentT i := wf.segmentT_nonneg (le_of_lt hi)
  have hm : c.segmentT (i + 1) ≤ c.getMaxT := wf.segmentT_le_maxT hi
  exact ⟨by linarith, by linarith⟩

theorem cum_boundary_eq {c : Curve} (wf : c.WellFormed) {i j : ℕ}
    (hi : i < c.segmentCount) (hj : j < c.segmentCount) (hij : i < j) {t : ℚ}
    (hit : c.segmentT i ≤ t) (hti : t ≤ c.segmentT (i + 1))
    (hjt : c.segmentT j ≤ t) (htj : t ≤ c.segmentT (j + 1)) :
    cum c i ((t - c.segmentT i) / (c.segmentT (i + 1) - c.segmentT i)) =
    cum c j ((t - c.segmentT j) / (c.segmentT (j + 1) - c.segmentT j)) := by
  have hij1 : i + 1 ≤ j := hij
  have h1 : c.segmentT (i + 1) ≤ c.segmentT j := wf.segmentT_le hij1 (le_of_lt hj)
  have ht1 : t = c.segmentT (i + 1) := le_antisymm hti (le_trans h1 hjt)
  have ht2 : t = c.segmentT j := le_antisymm (le_trans hti h1) hjt
  have hstepi := wf.segmentT_step i hi
  have hstepj := wf.segmentT_step j hj
  have hj1 : i + 1 = j :=
    wf.segmentT_inj hi (le_of_lt hj) (by rw [← ht1]; exact ht2)
  have hpi : (t - c.segmentT i) / (c.segmentT (i + 1) - c.segmentT i) = 1 := by
    rw [ht1]; exact div_self (ne_of_gt (by linarith))
  have hpj : (t - c.segmentT j) / (c.segmentT (j + 1) - c.segmentT j) = 0 := by
    rw [ht2]; simp
  rw [hpi, hpj]
  unfold cum
  rw [← hj1]
  show sumLens c i + c.segmentArcLength i 0 1 =
    sumLens c i + c.segmentArcLength i 0 1 + c.segmentArcLength (i + 1) 0 0
  rw [wf.arcLength_self (i + 1) (hj1 ▸ hj) 0]
  ring

theorem cum_localize {c : Curve} (wf : c.WellFormed) {i : ℕ}
    (hi : i < c.segmentCount) {t : ℚ}
    (hit : c.segmentT i ≤ t) (hti : t ≤ c.segmentT (i + 1)) :
    arcToT c t = cum c i ((t - c.segmentT i) / (c.segmentT (i + 1) - c.segmentT i)) := by
  have h0 : 0 ≤ t := le_trans (wf.segmentT_nonneg (le_of_lt hi)) hit
  have h1 : t ≤ c.getMaxT := le_trans hti (wf.segmentT_le_maxT hi)
  obtain ⟨hj, hjl, hjr⟩ := wf.segmentForT_spec t h0 h1
  unfold arcToT localPercent
  rcases Nat.lt_trichotomy (c.segmentForT t) i with h | h | h
  · exact (cum_boundary_eq wf hj hi h hjl hjr hit hti)
  · rw [h]
  · exact (cum_boundary_eq wf hi hj h hit hti hjl hjr).symm

theorem arcToT_paramOf {c : Curve} (wf : c.WellFormed) {i : ℕ}
    (hi : i < c.segmentCount) {p : ℚ} (h0 : 0 ≤ p) (h1 : p ≤ 1) :
    arcToT c (paramOf c i p) = cum c i p := by
  obtain ⟨hl, hr⟩ := paramOf_bounds wf hi h0 h1
  rw [cum_localize wf hi hl hr]
  have hstep := wf.segmentT_step i hi
  have hp : (paramOf c i p - c.segmentT i) / (c.segmentT (i + 1) - c.segmentT i) = p := by
    have hne : c.segmentT (i + 1) - c.segmentT i ≠ 0 := ne_of_gt (by linarith)
    unfold paramOf
    field_simp
  rw [hp]

theorem arcToT_zero {c : Curve} (wf : c.WellFormed) : arcToT c 0 = 0 := by
  have h := arcToT_paramOf wf wf.segments_pos (le_refl (0 : ℚ)) (by norm_num)
  have hp : paramOf c 0 0 = 0 := by
    unfold paramOf
    rw [wf.segmentT_zero]; ring
  rw [hp] at h
  rw [h]
  unfold cum
  rw [wf.arcLength_self 0 wf.segments_pos 0]
  simp [sumLens]

theorem arcToT_maxT {c : Curve} (wf : c.WellFormed) :
    arcToT c c.getMaxT = ArcLength.totalArcLength c := by
  have hn := wf.segments_pos
  have hi : c.segmentCount - 1 < c.segmentCount := by omega
  have hsucc : c.segmentCount - 1 + 1 = c.segmentCount := by omega
  have h := arcToT_paramOf wf hi (p := 1) (by norm_num) (by norm_num)
  have hp : paramOf c (c.segmentCount - 1) 1 = c.getMaxT := by
    unfold paramOf
    rw [hsucc, wf.segmentT_max]; ring
  rw [hp] at h
  rw [h, totalArcLength_eq_sumLens]
  unfold cum
  conv_rhs => rw [← hsucc]
  rfl

theorem arcToT_mono {c : Curve} (wf : c.WellFormed) {x y : ℚ}
    (hx : 0 ≤ x) (hxy : x ≤ y) (hy : y ≤ c.getMaxT) :
    arcToT c x ≤ arcToT c y := by
  have hx1 : x ≤ c.getMaxT := le_trans hxy hy
  have hy0 : 0 ≤ y := le_trans hx hxy
  obtain ⟨hjx, hxl, hxr⟩ := wf.segmentForT_spec x hx hx1
  obtain ⟨hjy, hyl, hyr⟩ := wf.segmentForT_spec y hy0 hy
  obtain ⟨hpx0, hpx1⟩ := localPercent_bounds wf hx hx1
  obtain ⟨hpy0, hpy1⟩ := localPercent_bounds wf hy0 hy
  rcases Nat.lt_trichotomy (c.segmentForT x) (c.segmentForT y) with h | h | h
  · have h1 : cum c (c.segmentForT x) (localPercent c x) ≤
        cum c (c.segmentForT x) 1 := by
      unfold cum
      have := wf.arcLength_mono (c.segmentForT x) hjx (localPercent c x) 1 hpx0 hpx1 le_rfl
      linarith
    have h2 : cum c (c.segmentForT x) 1 = sumLens c (c.segmentForT x + 1) := rfl
    have h3 : sumLens c (c.segmentForT x + 1) ≤ sumLens c (c.segmentForT y) :=
      sumLens_le wf h (le_of_lt hjy)
    have h4 : sumLens c (c.segmentForT y) ≤ cum c (c.segmentForT y) (localPercent c y) := by
      unfold cum
      have := wf.arcLength_zero_nonneg (c.segmentForT y) hjy hpy0 hpy1
      linarith
    unfold arcToT
    linarith
  · unfold arcToT localPercent
    rw [h]
    have hstep := wf.segmentT_step (c.segmentForT y) hjy
    have hple : (x - c.segmentT (c.segmentForT y)) / (c.segmentT (c.segmentForT y + 1) -
        c.segmentT (c.segmentForT y)) ≤ (y - c.segmentT (c.segmentForT y)) /
        (c.segmentT (c.segmentForT y + 1) - c.segmentT (c.segmentForT y)) := by
      apply div_le_div_of_nonneg_right _ (by linarith)
      · linarith
    have hpx0' : 0 ≤ (x - c.segmentT (c.segmentForT y)) / (c.segmentT (c.segmentForT y + 1) -
        c.segmentT (c.segmentForT y)) := by
      apply div_nonneg _ (by linarith)
      rw [← h]; linarith
    have hpy1' : (y - c.segmentT (c.segmentForT y)) / (c.segmentT (c.segmentForT y + 1) -
        c.segmentT (c.segmentForT y)) ≤ 1 := by
      rw [div_le_one (by linarith)]; linarith
    unfold cum
    have := wf.arcLength_mono (c.segmentForT y) hjy _ _ hpx0' hple hpy1'
    linarith
  · have h1 : c.segmentT (c.segmentForT y + 1) ≤ c.segmentT (c.segmentForT x) :=
      wf.segmentT_le h (le_of_lt hjx)
    have hxy' : x = y := le_antisymm hxy (by linarith)
    rw [hxy']

theorem arcToT_nonneg {c : Curve} (wf : c.WellFormed) {t : ℚ}
    (h0 : 0 ≤ t) (h1 : t ≤ c.getMaxT) : 0 ≤ arcToT c t := by
  have h := arcToT_mono wf (le_refl (0 : ℚ)) h0 h1
  rw [arcToT_zero wf] at h
  exact h

theorem arcToT_le_total {c : Curve} (wf : c.WellFormed) {t : ℚ}
    (h0 : 0 ≤ t) (h1 : t ≤ c.getMaxT) :
    arcToT c t ≤ ArcLength.totalArcLength c := by
  have h := arcToT_mono wf h0 h1 le_rfl
  rw [arcToT_maxT wf] at h
  exact h

theorem arcToT_lt_of_lt {c : Curve} (wf : c.WellFormed) {x y : ℚ}
    (hx : 0 ≤ x) (hx1 : x ≤ c.getMaxT) (hy : 0 ≤ y) (hy1 : y ≤ c.getMaxT)
    (h : arcToT c x < arcToT c y) : x < y := by
  by_contra hc
  push_neg at hc
  exact absurd (arcToT_mono wf hy hc hx1) (not_le.mpr h)

theorem arcRemaining_decomp {c : Curve} (wf : c.WellFormed) {a : ℚ}
    (h0 : 0 ≤ a) (h1 : a ≤ c.getMaxT) :
    arcRemaining c a = c.segmentArcLength (c.segmentForT a) (localPercent c a) 1 +
      (sumLens c c.segmentCount - sumLens c (c.segmentForT a + 1)) := by
  obtain ⟨hj, _, _⟩ := wf.segmentForT_spec a h0 h1
  unfold arcRemaining
  rw [totalArcLength_eq_sumLens, wf.arcLength_sub (c.segmentForT a) hj]
  unfold arcToT cum
  show sumLens c c.segmentCount -
      (sumLens c (c.segmentForT a) + c.segmentArcLength (c.segmentForT a) 0 (localPercent c a)) =
    c.segmentArcLength (c.segmentForT a) 0 1 -
      c.segmentArcLength (c.segmentForT a) 0 (localPercent c a) +
      (sumLens c c.segmentCount -
        (sumLens c (c.segmentForT a) + c.segmentArcLength (c.segmentForT a) 0 1))
  ring

theorem arcRemaining_nonneg {c : Curve} (wf : c.WellFormed) {a : ℚ}
    (h0 : 0 ≤ a) (h1 : a ≤ c.getMaxT) : 0 ≤ arcRemaining c a := by
  unfold arcRemaining
  have := arcToT_le_total wf h0 h1
  linarith

/-! ### The `solveLength` scan loop -/

theorem scanLoop_spec (c : Curve) :
    ∀ i (d L : ℚ), i < c.segmentCount → 0 < d →
      i + 1 ≤ (ArcLength.scanLoop c i d L).bIndex ∧
      (ArcLength.scanLoop c i d L).bIndex ≤ c.segmentCount ∧
      0 < (ArcLength.scanLoop c i d L).desiredLength ∧
      sumLens c (ArcLength.scanLoop c i d L).bIndex +
        (ArcLength.scanLoop c i d L).desiredLength = sumLens c (i + 1) + d ∧
      ((ArcLength.scanLoop c i d L).bIndex < c.segmentCount →
        (ArcLength.scanLoop c i d L).bLength =
          c.segmentArcLength (ArcLength.scanLoop c i d L).bIndex 0 1 ∧
        (ArcLength.scanLoop c i d L).desiredLength ≤
          (ArcLength.scanLoop c i d L).bLength) := by
  suffices h : ∀ k i (d L : ℚ), c.segmentCount - i ≤ k → i < c.segmentCount → 0 < d →
      i + 1 ≤ (ArcLength.scanLoop c i d L).bIndex ∧
      (ArcLength.scanLoop c i d L).bIndex ≤ c.segmentCount ∧
      0 < (ArcLength.scanLoop c i d L).desiredLength ∧
      sumLens c (ArcLength.scanLoop c i d L).bIndex +
        (ArcLength.scanLoop c i d L).desiredLength = sumLens c (i + 1) + d ∧
      ((ArcLength.scanLoop c i d L).bIndex < c.segmentCount →
        (ArcLength.scanLoop c i d L).bLength =
          c.segmentArcLength (ArcLength.scanLoop c i d L).bIndex 0 1 ∧
        (ArcLength.scanLoop c i d L).desiredLength ≤
          (ArcLength.scanLoop c i d L).bLength) by
    exact fun i d L => h (c.segmentCount - i) i d L le_rfl
  intro k
  induction k with
  | zero => intro i d L hk hi hd; omega
  | succ k ih =>
    intro i d L hk hi hd
    rw [ArcLength.scanLoop]
    by_cases h1 : i + 1 < c.segmentCount
    · rw [dif_pos h1]
      by_cases h2 : c.segmentArcLength (i + 1) 0 1 < d
      · rw [if_pos h2]
        have hd' : 0 < d - c.segmentArcLength (i + 1) 0 1 := by linarith
        obtain ⟨a1, a2, a3, a4, a5⟩ :=
          ih (i + 1) (d - c.segmentArcLength (i + 1) 0 1)
            (c.segmentArcLength (i + 1) 0 1) (by omega) h1 hd'
        refine ⟨by omega, a2, a3, ?_, a5⟩
        rw [a4]
        show sumLens c (i + 1 + 1) + (d - c.segmentArcLength (i + 1) 0 1) =
          sumLens c (i + 1) + d
        show sumLens c (i + 1) + c.segmentArcLength (i + 1) 0 1 +
          (d - c.segmentArcLength (i + 1) 0 1) = sumLens c (i + 1) + d
        ring
      · rw [if_neg h2]
        exact ⟨le_rfl, le_of_lt h1, hd, rfl, fun _ => ⟨rfl, by linarith⟩⟩
    · rw [dif_neg h1]
      exact ⟨le_rfl, Nat.succ_le_of_lt hi, hd, rfl, fun hlt => absurd hlt h1⟩

theorem scanLoop_exhaust {c : Curve} (wf : c.WellFormed) {i : ℕ} {d L : ℚ}
    (hi : i < c.segmentCount) (hd : 0 < d)
    (h : sumLens c c.segmentCount - sumLens c (i + 1) < d) :
    (ArcLength.scanLoop c i d L).bIndex = c.segmentCount := by
  obtain ⟨a1, a2, a3, a4, a5⟩ := scanLoop_spec c i d L hi hd
  by_contra hc
  have hb : (ArcLength.scanLoop c i d L).bIndex < c.segmentCount :=
    lt_of_le_of_ne a2 hc
  obtain ⟨b1, b2⟩ := a5 hb
  have hlen : 0 ≤ c.segmentArcLength (ArcLength.scanLoop c i d L).bIndex 0 1 :=
    wf.arcLength_zero_nonneg _ hb (by norm_num) (by norm_num)
  have hs : sumLens c ((ArcLength.scanLoop c i d L).bIndex + 1) ≤
      sumLens c c.segmentCount := sumLens_le wf hb le_rfl
  have hs2 : sumLens c ((ArcLength.scanLoop c i d L).bIndex + 1) =
      sumLens c (ArcLength.scanLoop c i d L).bIndex +
        c.segmentArcLength (ArcLength.scanLoop c i d L).bIndex 0 1 := rfl
  rw [b1] at b2
  linarith

theorem scanLoop_hit {c : Curve} (wf : c.WellFormed) {i : ℕ} {d L : ℚ}
    (hi : i < c.segmentCount) (hd : 0 < d)
    (h : d ≤ sumLens c c.segmentCount - sumLens c (i + 1)) :
    (ArcLength.scanLoop c i d L).bIndex < c.segmentCount ∧
    i + 1 ≤ (ArcLength.scanLoop c i d L).bIndex ∧
    0 < (ArcLength.scanLoop c i d L).desiredLength ∧
    (ArcLength.scanLoop c i d L).bLength =
      c.segmentArcLength (ArcLength.scanLoop c i d L).bIndex 0 1 ∧
    (ArcLength.scanLoop c i d L).desiredLength ≤
      c.segmentArcLength (ArcLength.scanLoop c i d L).bIndex 0 1 ∧
    sumLens c (ArcLength.scanLoop c i d L).bIndex +
      (ArcLength.scanLoop c i d L).desiredLength = sumLens c (i + 1) + d := by
  obtain ⟨a1, a2, a3, a4, a5⟩ := scanLoop_spec c i d L hi hd
  have hb : (ArcLength.scanLoop c i d L).bIndex < c.segmentCount := by
    rcases lt_or_eq_of_le a2 with hlt | heq
    · exact hlt
    · exfalso
      rw [heq] at a4
      linarith
  obtain ⟨b1, b2⟩ := a5 hb
  rw [b1] at b2
  exact ⟨hb, a1, a3, b1, b2, a4⟩

/-! ### The partition consume loop -/

theorem consume_spec {c : Curve} (wf : c.WellFormed) :
    ∀ i (d rem : ℚ), i < c.segmentCount → 0 < d →
      d ≤ rem + (sumLens c c.segmentCount - sumLens c (i + 1)) →
      i ≤ (ArcLength.consume (ArcLength.segmentLengths c) i d rem).1 ∧
      (ArcLength.consume (ArcLength.segmentLengths c) i d rem).1 < c.segmentCount ∧
      0 < (ArcLength.consume (ArcLength.segmentLengths c) i d rem).2.1 ∧
      (ArcLength.consume (ArcLength.segmentLengths c) i d rem).2.1 ≤
        (ArcLength.consume (ArcLength.segmentLengths c) i d rem).2.2 ∧
      (sumLens c ((ArcLength.consume (ArcLength.segmentLengths c) i d rem).1 + 1) -
        (ArcLength.consume (ArcLength.segmentLengths c) i d rem).2.2) +
        (ArcLength.consume (ArcLength.segmentLengths c) i d rem).2.1 =
        (sumLens c (i + 1) - rem) + d ∧
      ((ArcLength.consume (ArcLength.segmentLengths c) i d rem).1 = i →
        (ArcLength.consume (ArcLength.segmentLengths c) i d rem).2.1 = d ∧
        (ArcLength.consume (ArcLength.segmentLengths c) i d rem).2.2 = rem) ∧
      (i < (ArcLength.consume (ArcLength.segmentLengths c) i d rem).1 →
        (ArcLength.consume (ArcLength.segmentLengths c) i d rem).2.2 =
          c.segmentArcLength
            (ArcLength.consume (ArcLength.segmentLengths c) i d rem).1 0 1) := by
  suffices h : ∀ k i (d rem : ℚ), c.segmentCount - i ≤ k → i < c.segmentCount → 0 < d →
      d ≤ rem + (sumLens c c.segmentCount - sumLens c (i + 1)) →
      i ≤ (ArcLength.consume (ArcLength.segmentLengths c) i d rem).1 ∧
      (ArcLength.consume (ArcLength.segmentLengths c) i d rem).1 < c.segmentCount ∧
      0 < (ArcLength.consume (ArcLength.segmentLengths c) i d rem).2.1 ∧
      (ArcLength.consume (ArcLength.segmentLengths c) i d rem).2.1 ≤
        (ArcLength.consume (ArcLength.segmentLengths c) i d rem).2.2 ∧
      (sumLens c ((ArcLength.consume (ArcLength.segmentLengths c) i d rem).1 + 1) -
        (ArcLength.consume (ArcLength.segmentLengths c) i d rem).2.2) +
        (ArcLength.consume (ArcLength.segmentLengths c) i d rem).2.1 =
        (sumLens c (i + 1) - rem) + d ∧
      ((ArcLength.consume (ArcLength.segmentLengths c) i d rem).1 = i →
        (ArcLength.consume (ArcLength.segmentLengths c) i d rem).2.1 = d ∧
        (ArcLength.consume (ArcLength.segmentLengths c) i d rem).2.2 = rem) ∧
      (i < (ArcLength.consume (ArcLength.segmentLengths c) i d rem).1 →
        (ArcLength.consume (ArcLength.segmentLengths c) i d rem).2.2 =
          c.segmentArcLength
            (ArcLength.consume (ArcLength.segmentLengths c) i d rem).1 0 1) by
    exact fun i d rem => h (c.segmentCount - i) i d rem le_rfl
  intro k
  induction k with
  | zero => intro i d rem hk hi hd hav; omega
  | succ k ih =>
    intro i d rem hk hi hd hav
    rw [ArcLength.consume]
    by_cases h1 : rem < d
    · have hrest : sumLens c (i + 1) ≤ sumLens c c.segmentCount :=
        sumLens_le wf (Nat.succ_le_of_lt hi) le_rfl
      have hi1 : i + 1 < c.segmentCount := by
        by_contra hc
        have : c.segmentCount ≤ i + 1 := le_of_not_lt hc
        have he : c.segmentCount = i + 1 := le_antisymm this (Nat.succ_le_of_lt hi)
        rw [he] at hav
        linarith
      have hlen : i + 1 < (ArcLength.segmentLengths c).length := by
        rw [segmentLengths_length]; exact hi1
      rw [if_pos h1, dif_pos hlen]
      rw [segmentLengths_get c (i + 1) hlen]
      have hd' : 0 < d - rem := by linarith
      have hav' : d - rem ≤ c.segmentArcLength (i + 1) 0 1 +
          (sumLens c c.segmentCount - sumLens c (i + 1 + 1)) := by
        have hs : sumLens c (i + 1 + 1) =
            sumLens c (i + 1) + c.segmentArcLength (i + 1) 0 1 := rfl
        linarith
      obtain ⟨a1, a2, a3, a4, a5, a6, a7⟩ :=
        ih (i + 1) (d - rem) (c.segmentArcLength (i + 1) 0 1) (by omega) hi1 hd' hav'
      refine ⟨by omega, a2, a3, a4, ?_, fun he => absurd he (by omega), fun _ => ?_⟩
      · rw [a5]
        have hs : sumLens c (i + 1 + 1) =
            sumLens c (i + 1) + c.segmentArcLength (i + 1) 0 1 := rfl
        linarith
      · rcases Nat.lt_or_ge (i + 1)
          (ArcLength.consume (ArcLength.segmentLengths c) (i + 1) (d - rem)
            (c.segmentArcLength (i + 1) 0 1)).1 with hlt | hge
        · exact a7 hlt
        · have he : (ArcLength.consume (ArcLength.segmentLengths c) (i + 1) (d - rem)
              (c.segmentArcLength (i + 1) 0 1)).1 = i + 1 := le_antisymm hge a1
          rw [he]
          exact (a6 he).2
    · rw [if_neg h1]
      exact ⟨le_rfl, hi, hd, le_of_not_lt h1, by ring, fun _ => ⟨rfl, rfl⟩,
        fun hlt => absurd hlt (lt_irrefl i)⟩

/-! ### The Segment Solver -/

theorem solveSegment_mem {c : Curve} {i : ℕ} {d m p : ℚ} (hp1 : p ≤ 1) :
    p ≤ ArcLengthSolvePrivate.solveSegment c i d m p ∧
    ArcLengthSolvePrivate.solveSegment c i d m p ≤ 1 := by
  unfold ArcLengthSolvePrivate.solveSegment
  constructor
  · exact le_min hp1 (le_max_left _ _)
  · exact min_le_left _ _

theorem solveSegment_root {c : Curve} (wf : c.WellFormed) {i : ℕ}
    (hi : i < c.segmentCount) {d m p : ℚ} (hp0 : 0 ≤ p) (hp1 : p ≤ 1)
    (hd0 : 0 ≤ d) (hdm : d ≤ c.segmentArcLength i p 1) :
    ArcLengthSolvePrivate.solveSegment c i d m p = c.segmentSolve i p d ∧
    p ≤ ArcLengthSolvePrivate.solveSegment c i d m p ∧
    ArcLengthSolvePrivate.solveSegment c i d m p ≤ 1 ∧
    c.segmentArcLength i p (ArcLengthSolvePrivate.solveSegment c i d m p) = d := by
  obtain ⟨s1, s2, s3⟩ := wf.segmentSolve_spec i hi p d hp0 hp1 hd0 hdm
  have hcl : ArcLengthSolvePrivate.solveSegment c i d m p = c.segmentSolve i p d := by
    unfold ArcLengthSolvePrivate.solveSegment
    rw [max_eq_right s1, min_eq_right s2]
  refine ⟨hcl, ?_, ?_, ?_⟩ <;> rw [hcl]
  · exact s1
  · exact s2
  · exact s3

/-! ### Branch equations for `solveLength` -/

theorem solveLength_eq_stay {c : Curve} {a d : ℚ}
    (h : ¬ c.segmentArcLength (c.segmentForT a) (localPercent c a) 1 < d)
    (h2 : c.segmentForT a ≠ c.segmentCount) :
    ArcLength.solveLength c a d = paramOf c (c.segmentForT a)
      (ArcLengthSolvePrivate.solveSegment c (c.segmentForT a) d
        (c.segmentArcLength (c.segmentForT a) (localPercent c a) 1)
        (localPercent c a)) := by
  unfold localPercent at h ⊢
  simp only [ArcLength.solveLength]
  rw [if_neg h, if_neg h2]
  rfl

theorem solveLength_eq_scanHit {c : Curve} {a d : ℚ}
    (h : c.segmentArcLength (c.segmentForT a) (localPercent c a) 1 < d)
    (h2 : (ArcLength.scanLoop c (c.segmentForT a)
      (d - c.segmentArcLength (c.segmentForT a) (localPercent c a) 1)
      (c.segmentArcLength (c.segmentForT a) (localPercent c a) 1)).bIndex ≠
      c.segmentCount) :
    ArcLength.solveLength c a d = paramOf c
      (ArcLength.scanLoop c (c.segmentForT a)
        (d - c.segmentArcLength (c.segmentForT a) (localPercent c a) 1)
        (c.segmentArcLength (c.segmentForT a) (localPercent c a) 1)).bIndex
      (ArcLengthSolvePrivate.solveSegment c
        (ArcLength.scanLoop c (c.segmentForT a)
          (d - c.segmentArcLength (c.segmentForT a) (localPercent c a) 1)
          (c.segmentArcLength (c.segmentForT a) (localPercent c a) 1)).bIndex
        (ArcLength.scanLoop c (c.segmentForT a)
          (d - c.segmentArcLength (c.segmentForT a) (localPercent c a) 1)
          (c.segmentArcLength (c.segmentForT a) (localPercent c a) 1)).desiredLength
        (ArcLength.scanLoop c (c.segmentForT a)
          (d - c.segmentArcLength (c.segmentForT a) (localPercent c a) 1)
          (c.segmentArcLength (c.segmentForT a) (localPercent c a) 1)).bLength
        0) := by
  unfold localPercent at h h2 ⊢
  simp only [ArcLength.solveLength]
  rw [if_pos h, if_neg h2]
  rfl

theorem solveLength_eq_scanSat {c : Curve} {a d : ℚ}
    (h : c.segmentArcLength (c.segmentForT a) (localPercent c a) 1 < d)
    (h2 : (ArcLength.scanLoop c (c.segmentForT a)
      (d - c.segmentArcLength (c.segmentForT a) (localPercent c a) 1)
      (c.segmentArcLength (c.segmentForT a) (localPercent c a) 1)).bIndex =
      c.segmentCount) :
    ArcLength.solveLength c a d = c.getMaxT := by
  unfold localPercent at h h2
  simp only [ArcLength.solveLength]
  rw [if_pos h, if_pos h2]

theorem solveLengthSegment_eq_stay {c : Curve} {a d : ℚ}
    (h : ¬ c.segmentArcLength (c.segmentForT a) (localPercent c a) 1 < d) :
    ArcLength.solveLengthSegment c a d = c.segmentForT a := by
  unfold localPercent at h
  simp only [ArcLength.solveLengthSegment]
  rw [if_neg h]

theorem solveLengthSegment_eq_scan {c : Curve} {a d : ℚ}
    (h : c.segmentArcLength (c.segmentForT a) (localPercent c a) 1 < d) :
    ArcLength.solveLengthSegment c a d =
      (ArcLength.scanLoop c (c.segmentForT a)
        (d - c.segmentArcLength (c.segmentForT a) (localPercent c a) 1)
        (c.segmentArcLength (c.segmentForT a) (localPercent c a) 1)).bIndex := by
  unfold localPercent at h ⊢
  simp only [ArcLength.solveLengthSegment]
  rw [if_pos h]

/-! ### Characterization of `solveLength` -/

theorem solveLength_spec {c : Curve} (wf : c.WellFormed) {a d : ℚ}
    (ha0 : 0 ≤ a) (ha1 : a ≤ c.getMaxT) (hd : 0 ≤ d) :
    (d ≤ arcRemaining c a →
      ∃ j p, j < c.segmentCount ∧ 0 ≤ p ∧ p ≤ 1 ∧
        cum c j p = arcToT c a + d ∧
        ArcLength.solveLength c a d = paramOf c j p ∧
        ArcLength.solveLengthSegment c a d = j) ∧
    (arcRemaining c a < d →
      ArcLength.solveLength c a d = c.getMaxT ∧
      ArcLength.solveLengthSegment c a d = c.segmentCount) := by
  obtain ⟨hj, hal, har⟩ := wf.segmentForT_spec a ha0 ha1
  obtain ⟨hp0, hp1⟩ := localPercent_bounds wf ha0 ha1
  have hrem := arcRemaining_decomp wf ha0 ha1
  have hrest0 : 0 ≤ sumLens c c.segmentCount - sumLens c (c.segmentForT a + 1) := by
    have := sumLens_le wf (Nat.succ_le_of_lt hj) le_rfl
    linarith
  have harc : arcToT c a = sumLens c (c.segmentForT a) +
      c.segmentArcLength (c.segmentForT a) 0 (localPercent c a) := rfl
  have hsucc : sumLens c (c.segmentForT a + 1) = sumLens c (c.segmentForT a) +
      c.segmentArcLength (c.segmentForT a) 0 1 := rfl
  have hsubA := wf.arcLength_sub (c.segmentForT a) hj (localPercent c a) 1
  by_cases hscan : c.segmentArcLength (c.segmentForT a) (localPercent c a) 1 < d
  · have hd1 : (0:ℚ) < d - c.segmentArcLength (c.segmentForT a) (localPercent c a) 1 := by
      linarith
    constructor
    · intro hdr
      have hrest : d - c.segmentArcLength (c.segmentForT a) (localPercent c a) 1 ≤
          sumLens c c.segmentCount - sumLens c (c.segmentForT a + 1) := by
        rw [hrem] at hdr; linarith
      obtain ⟨hb, hge, hdpos, hblen, hdle, hsum⟩ :=
        scanLoop_hit (L := c.segmentArcLength (c.segmentForT a) (localPercent c a) 1)
          wf hj hd1 hrest
      obtain ⟨hcl, hr0, hr1, hroot⟩ :=
        solveSegment_root (m := (ArcLength.scanLoop c (c.segmentForT a)
            (d - c.segmentArcLength (c.segmentForT a) (localPercent c a) 1)
            (c.segmentArcLength (c.segmentForT a) (localPercent c a) 1)).bLength)
          wf hb le_rfl (by norm_num) (le_of_lt hdpos)
          (by
            have h0 := wf.arcLength_sub (ArcLength.scanLoop c (c.segmentForT a)
              (d - c.segmentArcLength (c.segmentForT a) (localPercent c a) 1)
              (c.segmentArcLength (c.segmentForT a) (localPercent c a) 1)).bIndex hb 0 1
            have h1 := wf.arcLength_self (ArcLength.scanLoop c (c.segmentForT a)
              (d - c.segmentArcLength (c.segmentForT a) (localPercent c a) 1)
              (c.segmentArcLength (c.segmentForT a) (localPercent c a) 1)).bIndex hb 0
            linarith)
      refine ⟨(ArcLength.scanLoop c (c.segmentForT a)
          (d - c.segmentArcLength (c.segmentForT a) (localPercent c a) 1)
          (c.segmentArcLength (c.segmentForT a) (localPercent c a) 1)).bIndex,
        ArcLengthSolvePrivate.solveSegment c
          (ArcLength.scanLoop c (c.segmentForT a)
            (d - c.segmentArcLength (c.segmentForT a) (localPercent c a) 1)
            (c.segmentArcLength (c.segmentForT a) (localPercent c a) 1)).bIndex
          (ArcLength.scanLoop c (c.segmentForT a)
            (d - c.segmentArcLength (c.segmentForT a) (localPercent c a) 1)
            (c.segmentArcLength (c.segmentForT a) (localPercent c a) 1)).desiredLength
          (ArcLength.scanLoop c (c.segmentForT a)
            (d - c.segmentArcLength (c.segmentForT a) (localPercent c a) 1)
            (c.segmentArcLength (c.segmentForT a) (localPercent c a) 1)).bLength 0,
        hb, hr0, hr1, ?_, ?_, ?_⟩
      · show sumLens c _ + c.segmentArcLength _ 0 _ = arcToT c a + d
        rw [hroot, harc]
        linarith
      · exact solveLength_eq_scanHit hscan (ne_of_lt hb)
      · exact solveLengthSegment_eq_scan hscan
    · intro hdr
      have hrest2 : sumLens c c.segmentCount - sumLens c (c.segmentForT a + 1) <
          d - c.segmentArcLength (c.segmentForT a) (localPercent c a) 1 := by
        rw [hrem] at hdr; linarith
      have hsat := scanLoop_exhaust (L := c.segmentArcLength (c.segmentForT a)
        (localPercent c a) 1) wf hj hd1 hrest2
      refine ⟨solveLength_eq_scanSat hscan hsat, ?_⟩
      rw [solveLengthSegment_eq_scan hscan]
      exact hsat
  · constructor
    · intro _
      obtain ⟨hcl, hr0, hr1, hroot⟩ :=
        solveSegment_root (m := c.segmentArcLength (c.segmentForT a) (localPercent c a) 1)
          wf hj hp0 hp1 hd (le_of_not_lt hscan)
      refine ⟨c.segmentForT a,
        ArcLengthSolvePrivate.solveSegment c (c.segmentForT a) d
          (c.segmentArcLength (c.segmentForT a) (localPercent c a) 1) (localPercent c a),
        hj, le_trans hp0 hr0, hr1, ?_, ?_, ?_⟩
      · show sumLens c _ + c.segmentArcLength _ 0 _ = arcToT c a + d
        have hsub2 := wf.arcLength_sub (c.segmentForT a) hj (localPercent c a)
          (ArcLengthSolvePrivate.solveSegment c (c.segmentForT a) d
            (c.segmentArcLength (c.segmentForT a) (localPercent c a) 1) (localPercent c a))
        rw [harc]
        linarith [hroot]
      · exact solveLength_eq_stay hscan (ne_of_lt hj)
      · exact solveLengthSegment_eq_stay hscan
    · intro hdr
      exfalso
      rw [hrem] at hdr
      have : d ≤ c.segmentArcLength (c.segmentForT a) (localPercent c a) 1 :=
        le_of_not_lt hscan
      linarith

/-! ### Well-formedness of the concrete curves -/

theorem demoCurve_wf : demoCurve.WellFormed := by
  constructor
  · norm_num [demoCurve]
  · norm_num [demoCurve]
  · norm_num [demoCurve]
  · intro i _
    show (i : ℚ) < (i + 1 : ℕ)
    push_cast
    linarith
  · intro i _ a b
    show (if i = 0 then (3:ℚ) else 7) * (b - a) =
      (if i = 0 then (3:ℚ) else 7) * (b - 0) - (if i = 0 then (3:ℚ) else 7) * (a - 0)
    ring
  · intro i _ a b h0 hab _
    show (if i = 0 then (3:ℚ) else 7) * (a - 0) ≤ (if i = 0 then (3:ℚ) else 7) * (b - 0)
    split_ifs <;> nlinarith
  · intro t h0 h1
    show (if t < 1 then 0 else 1) < 2 ∧
      demoCurve.segmentT (if t < 1 then 0 else 1) ≤ t ∧
      t ≤ demoCurve.segmentT ((if t < 1 then 0 else 1) + 1)
    by_cases ht : t < 1
    · rw [if_pos ht]
      refine ⟨by norm_num, ?_, ?_⟩
      · show ((0:ℕ):ℚ) ≤ t; norm_num; exact h0
      · show t ≤ ((0+1:ℕ):ℚ); norm_num; linarith
    · rw [if_neg ht]
      refine ⟨by norm_num, ?_, ?_⟩
      · show ((1:ℕ):ℚ) ≤ t; norm_num; linarith [not_lt.mp ht]
      · show t ≤ ((1+1:ℕ):ℚ); push_cast; norm_num; exact h1
  · intro i _ a d h0 h1 hd0 hdm
    show a ≤ a + d / (if i = 0 then (3:ℚ) else 7) ∧
      a + d / (if i = 0 then (3:ℚ) else 7) ≤ 1 ∧
      (if i = 0 then (3:ℚ) else 7) * ((a + d / (if i = 0 then (3:ℚ) else 7)) - a) = d
    have hdm' : d ≤ (if i = 0 then (3:ℚ) else 7) * (1 - a) := hdm
    split_ifs with h
    · rw [if_pos h] at hdm'
      have hdiv : d / 3 ≤ 1 - a := by
        rw [div_le_iff₀ (by norm_num : (0:ℚ) < 3)]; linarith
      exact ⟨by linarith [div_nonneg hd0 (by norm_num : (0:ℚ) ≤ 3)], by linarith, by ring⟩
    · rw [if_neg h] at hdm'
      have hdiv : d / 7 ≤ 1 - a := by
        rw [div_le_iff₀ (by norm_num : (0:ℚ) < 7)]; linarith
      exact ⟨by linarith [div_nonneg hd0 (by norm_num : (0:ℚ) ≤ 7)], by linarith, by ring⟩

theorem lineCurve_wf : lineCurve.WellFormed := by
  constructor
  · norm_num [lineCurve]
  · norm_num [lineCurve]
  · norm_num [lineCurve]
  · intro i _
    show (i : ℚ) < (i + 1 : ℕ)
    push_cast
    linarith
  · intro i _ a b
    show (10:ℚ) * (b - a) = 10 * (b - 0) - 10 * (a - 0)
    ring
  · intro i _ a b h0 hab _
    show (10:ℚ) * (a - 0) ≤ 10 * (b - 0)
    nlinarith
  · intro t h0 h1
    refine ⟨by norm_num [lineCurve], ?_, ?_⟩
    · show ((0:ℕ):ℚ) ≤ t; norm_num; exact h0
    · show t ≤ ((0+1:ℕ):ℚ); norm_num; exact h1
  · intro i _ a d h0 h1 hd0 hdm
    have hdm' : d ≤ (10:ℚ) * (1 - a) := hdm
    have hdiv : d / 10 ≤ 1 - a := by
      rw [div_le_iff₀ (by norm_num : (0:ℚ) < 10)]; linarith
    refine ⟨?_, ?_, ?_⟩
    · show a ≤ a + d / 10
      linarith [div_nonneg hd0 (by norm_num : (0:ℚ) ≤ 10)]
    · show a + d / 10 ≤ 1
      linarith
    · show (10:ℚ) * ((a + d / 10) - a) = d
      ring

/-! ### Claim theorems -/

/-- C1: for every well-formed curve and starting parameter `a` in range, if the
requested distance exceeds the arc length remaining from `a` to the end of the
curve, `solveLength` returns `curve.getMaxT()` — a saturating clamp, not an
error. -/
theorem solveLength_saturates {c : Curve} (wf : c.WellFormed) {a d : ℚ}
    (ha0 : 0 ≤ a) (ha1 : a ≤ c.getMaxT) (hd : arcRemaining c a < d) :
    ArcLength.solveLength c a d = c.getMaxT :=
  ((solveLength_spec wf ha0 ha1
    (le_of_lt (lt_of_le_of_lt (arcRemaining_nonneg wf ha0 ha1) hd))).2 hd).1

/-- Witness for C1: on the two-segment demonstration curve of total length 10,
requesting 11 from parameter 0 returns `getMaxT = 2`. -/
theorem solveLength_saturates_witness :
    (0:ℚ) ≤ 0 ∧ (0:ℚ) ≤ demoCurve.getMaxT ∧ arcRemaining demoCurve 0 < 11 ∧
    ArcLength.solveLength demoCurve 0 11 = demoCurve.getMaxT := by
  have h1 : (0:ℚ) ≤ 0 := le_rfl
  have h2 : (0:ℚ) ≤ demoCurve.getMaxT := by norm_num [demoCurve]
  have h3 : arcRemaining demoCurve 0 < 11 := by
    norm_num [arcRemaining, arcToT, cum, sumLens, localPercent, ArcLength.totalArcLength,
      ArcLength.segmentLengths, demoCurve, List.range_succ]
  exact ⟨h1, h2, h3, solveLength_saturates demoCurve_wf h1 h2 h3⟩

/-- C2: for every well-formed curve, parameter `a` in `[0, maxT]` and distance
`0 < d` not exceeding the remaining arc length, the arc length between `a` and
`solveLength(curve, a, d)` equals `d` exactly (the embedding computes in exact
rational arithmetic, so the numerical tolerance is zero). -/
theorem solveLength_roundtrip {c : Curve} (wf : c.WellFormed) {a d : ℚ}
    (ha0 : 0 ≤ a) (ha1 : a ≤ c.getMaxT) (hd0 : 0 < d) (hdr : d ≤ arcRemaining c a) :
    arcLengthBetween c a (ArcLength.solveLength c a d) = d := by
  obtain ⟨j, p, hj, hp0, hp1, hcum, heq, _⟩ :=
    (solveLength_spec wf ha0 ha1 (le_of_lt hd0)).1 hdr
  unfold arcLengthBetween
  rw [heq, arcToT_paramOf wf hj hp0 hp1, hcum]
  ring

/-- Witness for C2: on the demonstration curve, solving for distance 5 from
parameter 0 lands at a parameter whose arc length from 0 is exactly 5. -/
theorem solveLength_roundtrip_witness :
    (0:ℚ) ≤ 0 ∧ (0:ℚ) ≤ demoCurve.getMaxT ∧ (0:ℚ) < 5 ∧
    (5:ℚ) ≤ arcRemaining demoCurve 0 ∧
    arcLengthBetween demoCurve 0 (ArcLength.solveLength demoCurve 0 5) = 5 := by
  have h1 : (0:ℚ) ≤ 0 := le_rfl
  have h2 : (0:ℚ) ≤ demoCurve.getMaxT := by norm_num [demoCurve]
  have h3 : (0:ℚ) < 5 := by norm_num
  have h4 : (5:ℚ) ≤ arcRemaining demoCurve 0 := by
    norm_num [arcRemaining, arcToT, cum, sumLens, localPercent, ArcLength.totalArcLength,
      ArcLength.segmentLengths, demoCurve, List.range_succ]
  exact ⟨h1, h2, h3, h4, solveLength_roundtrip demoCurve_wf h1 h2 h3 h4⟩

/-- C5: for every valid segment index, `aPercent` in `[0,1]`, and
`0 < desiredLength ≤ maxLength` (with `maxLength` the true remaining segment
length, per the §4.1 contract), `solveSegment` returns a local fraction inside
`[aPercent, 1]` — the bracketed iteration cannot escape the segment — and that
fraction solves the segment arc-length equation. -/
theorem solveSegment_bracket {c : Curve} (wf : c.WellFormed) {i : ℕ}
    (hi : i < c.segmentCount) {aPercent desiredLength maxLength : ℚ}
    (hp0 : 0 ≤ aPercent) (hp1 : aPercent ≤ 1) (hd0 : 0 < desiredLength)
    (hdm : desiredLength ≤ maxLength)
    (hm : maxLength = c.segmentArcLength i aPercent 1) :
    aPercent ≤ ArcLengthSolvePrivate.solveSegment c i desiredLength maxLength aPercent ∧
    ArcLengthSolvePrivate.solveSegment c i desiredLength maxLength aPercent ≤ 1 ∧
    c.segmentArcLength i aPercent
      (ArcLengthSolvePrivate.solveSegment c i desiredLength maxLength aPercent) =
      desiredLength := by
  obtain ⟨hcl, h1, h2, h3⟩ :=
    solveSegment_root (m := maxLength) wf hi hp0 hp1 (le_of_lt hd0) (hm ▸ hdm)
  exact ⟨h1, h2, h3⟩

/-- Witness for C5: segment 0 of the demonstration curve (length 3),
`aPercent = 0`, `desiredLength = 1`, `maxLength = 3`. -/
theorem solveSegment_bracket_witness :
    0 < demoCurve.segmentCount ∧ (0:ℚ) ≤ 0 ∧ (0:ℚ) ≤ 1 ∧ (0:ℚ) < 1 ∧ (1:ℚ) ≤ 3 ∧
    (3:ℚ) = demoCurve.segmentArcLength 0 0 1 ∧
    ((0:ℚ) ≤ ArcLengthSolvePrivate.solveSegment demoCurve 0 1 3 0 ∧
      ArcLengthSolvePrivate.solveSegment demoCurve 0 1 3 0 ≤ 1 ∧
      demoCurve.segmentArcLength 0 0 (ArcLengthSolvePrivate.solveSegment demoCurve 0 1 3 0) = 1) := by
  have h0 : 0 < demoCurve.segmentCount := by norm_num [demoCurve]
  have h1 : (0:ℚ) ≤ 0 := le_rfl
  have h2 : (0:ℚ) ≤ 1 := by norm_num
  have h3 : (0:ℚ) < 1 := by norm_num
  have h4 : (1:ℚ) ≤ 3 := by norm_num
  have h5 : (3:ℚ) = demoCurve.segmentArcLength 0 0 1 := by norm_num [demoCurve]
  exact ⟨h0, h1, h2, h3, h4, h5, solveSegment_bracket demoCurve_wf h0 h1 h2 h3 h4 h5⟩

/-- C8 (amended): the Segment Solver is invoked at most once per `solveLength`
query; exactly once — with the scan having localized the segment containing
the answer — whenever the requested distance does not exceed the remaining arc
length, and zero times on the saturating path. -/
theorem solveLength_solver_called_at_most_once {c : Curve} (wf : c.WellFormed)
    {a d : ℚ} (ha0 : 0 ≤ a) (ha1 : a ≤ c.getMaxT) (hd : 0 ≤ d) :
    ArcLength.solveLengthSolverCalls c a d ≤ 1 ∧
    (d ≤ arcRemaining c a →
      ArcLength.solveLengthSolverCalls c a d = 1 ∧
      ArcLength.solveLengthSegment c a d < c.segmentCount ∧
      c.segmentT (ArcLength.solveLengthSegment c a d) ≤ ArcLength.solveLength c a d ∧
      ArcLength.solveLength c a d ≤ c.segmentT (ArcLength.solveLengthSegment c a d + 1)) := by
  constructor
  · unfold ArcLength.solveLengthSolverCalls
    split_ifs <;> norm_num
  · intro hdr
    obtain ⟨j, p, hj, hp0, hp1, hcum, heq, hseg⟩ := (solveLength_spec wf ha0 ha1 hd).1 hdr
    have hcalls : ArcLength.solveLengthSolverCalls c a d = 1 := by
      unfold ArcLength.solveLengthSolverCalls
      rw [if_neg (by rw [hseg]; exact ne_of_lt hj)]
    obtain ⟨hb1, hb2⟩ := paramOf_bounds wf hj hp0 hp1
    rw [hseg, heq]
    exact ⟨hcalls, hj, hb1, hb2⟩

/-- Witness for C8's amended theorem: a non-saturating query on the
demonstration curve. -/
theorem solveLength_solver_called_at_most_once_witness :
    (0:ℚ) ≤ 0 ∧ (0:ℚ) ≤ demoCurve.getMaxT ∧ (0:ℚ) ≤ 5 ∧
    (ArcLength.solveLengthSolverCalls demoCurve 0 5 ≤ 1 ∧
      ((5:ℚ) ≤ arcRemaining demoCurve 0 →
        ArcLength.solveLengthSolverCalls demoCurve 0 5 = 1 ∧
        ArcLength.solveLengthSegment demoCurve 0 5 < demoCurve.segmentCount ∧
        demoCurve.segmentT (ArcLength.solveLengthSegment demoCurve 0 5) ≤
          ArcLength.solveLength demoCurve 0 5 ∧
        ArcLength.solveLength demoCurve 0 5 ≤
          demoCurve.segmentT (ArcLength.solveLengthSegment demoCurve 0 5 + 1))) := by
  have h1 : (0:ℚ) ≤ 0 := le_rfl
  have h2 : (0:ℚ) ≤ demoCurve.getMaxT := by norm_num [demoCurve]
  have h3 : (0:ℚ) ≤ 5 := by norm_num
  exact ⟨h1, h2, h3, solveLength_solver_called_at_most_once demoCurve_wf h1 h2 h3⟩

/-- Counterexample for C8 as stated: a saturating query is a call of
`solveLength` on a well-formed curve in which the Segment Solver is invoked
zero times, not exactly once (requested distance 11 exceeds the demonstration
curve's total length 10). -/
theorem solveLength_solver_calls_zero_on_saturation :
    demoCurve.WellFormed ∧ ArcLength.solveLengthSolverCalls demoCurve 0 11 = 0 ∧
    ArcLength.solveLengthSolverCalls demoCurve 0 11 ≠ 1 := by
  have h1 : (0:ℚ) ≤ 0 := le_rfl
  have h2 : (0:ℚ) ≤ demoCurve.getMaxT := by norm_num [demoCurve]
  have h3 : arcRemaining demoCurve 0 < 11 := by
    norm_num [arcRemaining, arcToT, cum, sumLens, localPercent, ArcLength.totalArcLength,
      ArcLength.segmentLengths, demoCurve, List.range_succ]
  have hd : (0:ℚ) ≤ 11 := by norm_num
  have hsat := ((solveLength_spec demoCurve_wf h1 h2 hd).2 h3).2
  have hz : ArcLength.solveLengthSolverCalls demoCurve 0 11 = 0 := by
    unfold ArcLength.solveLengthSolverCalls
    rw [if_pos hsat]
  exact ⟨demoCurve_wf, hz, by rw [hz]; norm_num⟩

/-! ### Iteration bounds -/

theorem scanSteps_le (c : Curve) : ∀ i (d : ℚ),
    ArcLength.scanSteps c i d ≤ c.segmentCount - i := by
  suffices h : ∀ k i (d : ℚ), c.segmentCount - i ≤ k →
      ArcLength.scanSteps c i d ≤ c.segmentCount - i by
    exact fun i d => h (c.segmentCount - i) i d le_rfl
  intro k
  induction k with
  | zero =>
    intro i d hk
    rw [ArcLength.scanSteps, dif_neg (by omega)]
    omega
  | succ k ih =>
    intro i d hk
    rw [ArcLength.scanSteps]
    by_cases h1 : i + 1 < c.segmentCount
    · rw [dif_pos h1]
      by_cases h2 : c.segmentArcLength (i + 1) 0 1 < d
      · rw [if_pos h2]
        have := ih (i + 1) (d - c.segmentArcLength (i + 1) 0 1) (by omega)
        omega
      · rw [if_neg h2]
        omega
    · rw [dif_neg h1]
      omega

theorem consumeSteps_le : ∀ (lens : List ℚ) i (d rem : ℚ),
    ArcLength.consumeSteps lens i d rem ≤ lens.length - i + 1 := by
  suffices h : ∀ k (lens : List ℚ) i (d rem : ℚ), lens.length - i ≤ k →
      ArcLength.consumeSteps lens i d rem ≤ lens.length - i + 1 by
    exact fun lens i d rem => h (lens.length - i) lens i d rem le_rfl
  intro k
  induction k with
  | zero =>
    intro lens i d rem hk
    rw [ArcLength.consumeSteps]
    by_cases h1 : rem < d
    · rw [if_pos h1, dif_neg (by omega)]
      omega
    · rw [if_neg h1]
      omega
  | succ k ih =>
    intro lens i d rem hk
    rw [ArcLength.consumeSteps]
    by_cases h1 : rem < d
    · rw [if_pos h1]
      by_cases h2 : i + 1 < lens.length
      · rw [dif_pos h2]
        have := ih lens (i + 1) (d - rem) (lens.get ⟨i + 1, h2⟩) (by omega)
        omega
      · rw [dif_neg h2]
        omega
    · rw [if_neg h1]
      omega

/-- C7: every call terminates with statically bounded work: the `solveLength`
scan performs at most `segmentCount` iterations, the partition consume loop at
most one iteration per table entry (plus the final check), and the Segment
Solver's Halley iteration cap is half the floating-point mantissa width —
26 for IEEE double (53 mantissa bits), 12 for single (24 bits).  All
embedded functions are total Lean functions, so termination needs no external
cancellation. -/
theorem arcLength_termination_bounds :
    (∀ (spline : Curve) (bIndex : ℕ) (d : ℚ),
      ArcLength.scanSteps spline bIndex d ≤ spline.segmentCount) ∧
    (∀ (lens : List ℚ) (bIndex : ℕ) (d rem : ℚ),
      ArcLength.consumeSteps lens bIndex d rem ≤ lens.length + 1) ∧
    ArcLength.halleyIterationBound 53 = 26 ∧ ArcLength.halleyIterationBound 24 = 12 := by
  refine ⟨?_, ?_, rfl, rfl⟩
  · intro spline i d
    have := scanSteps_le spline i d
    omega
  · intro lens i d rem
    have := consumeSteps_le lens i d rem
    omega

/-! ### Monotonicity of the scan -/

theorem scanLoop_ge (c : Curve) : ∀ i (d L : ℚ),
    i + 1 ≤ (ArcLength.scanLoop c i d L).bIndex := by
  suffices h : ∀ k i (d L : ℚ), c.segmentCount - i ≤ k →
      i + 1 ≤ (ArcLength.scanLoop c i d L).bIndex by
    exact fun i d L => h (c.segmentCount - i) i d L le_rfl
  intro k
  induction k with
  | zero =>
    intro i d L hk
    rw [ArcLength.scanLoop, dif_neg (by omega)]
  | succ k ih =>
    intro i d L hk
    rw [ArcLength.scanLoop]
    by_cases h1 : i + 1 < c.segmentCount
    · rw [dif_pos h1]
      by_cases h2 : c.segmentArcLength (i + 1) 0 1 < d
      · rw [if_pos h2]
        have := ih (i + 1) (d - c.segmentArcLength (i + 1) 0 1)
          (c.segmentArcLength (i + 1) 0 1) (by omega)
        omega
      · rw [if_neg h2]
    · rw [dif_neg h1]

theorem scanLoop_mono (c : Curve) : ∀ i (d₁ d₂ L₁ L₂ : ℚ), d₁ ≤ d₂ →
    (ArcLength.scanLoop c i d₁ L₁).bIndex ≤ (ArcLength.scanLoop c i d₂ L₂).bIndex ∧
    ((ArcLength.scanLoop c i d₁ L₁).bIndex = (ArcLength.scanLoop c i d₂ L₂).bIndex →
      (ArcLength.scanLoop c i d₂ L₂).desiredLength -
        (ArcLength.scanLoop c i d₁ L₁).desiredLength = d₂ - d₁) := by
  suffices h : ∀ k i (d₁ d₂ L₁ L₂ : ℚ), c.segmentCount - i ≤ k → d₁ ≤ d₂ →
      (ArcLength.scanLoop c i d₁ L₁).bIndex ≤ (ArcLength.scanLoop c i d₂ L₂).bIndex ∧
      ((ArcLength.scanLoop c i d₁ L₁).bIndex = (ArcLength.scanLoop c i d₂ L₂).bIndex →
        (ArcLength.scanLoop c i d₂ L₂).desiredLength -
          (ArcLength.scanLoop c i d₁ L₁).desiredLength = d₂ - d₁) by
    exact fun i d₁ d₂ L₁ L₂ => h (c.segmentCount - i) i d₁ d₂ L₁ L₂ le_rfl
  intro k
  induction k with
  | zero =>
    intro i d₁ d₂ L₁ L₂ hk h12
    rw [ArcLength.scanLoop, dif_neg (by omega), ArcLength.scanLoop, dif_neg (by omega)]
    exact ⟨le_rfl, fun _ => by ring⟩
  | succ k ih =>
    intro i d₁ d₂ L₁ L₂ hk h12
    by_cases h1 : i + 1 < c.segmentCount
    · by_cases hlt1 : c.segmentArcLength (i + 1) 0 1 < d₁
      · have hlt2 : c.segmentArcLength (i + 1) 0 1 < d₂ := lt_of_lt_of_le hlt1 h12
        have e1 : ArcLength.scanLoop c i d₁ L₁ = ArcLength.scanLoop c (i + 1)
            (d₁ - c.segmentArcLength (i + 1) 0 1) (c.segmentArcLength (i + 1) 0 1) := by
          rw [ArcLength.scanLoop, dif_pos h1, if_pos hlt1]
        have e2 : ArcLength.scanLoop c i d₂ L₂ = ArcLength.scanLoop c (i + 1)
            (d₂ - c.segmentArcLength (i + 1) 0 1) (c.segmentArcLength (i + 1) 0 1) := by
          rw [ArcLength.scanLoop, dif_pos h1, if_pos hlt2]
        rw [e1, e2]
        obtain ⟨m1, m2⟩ := ih (i + 1) (d₁ - c.segmentArcLength (i + 1) 0 1)
          (d₂ - c.segmentArcLength (i + 1) 0 1) (c.segmentArcLength (i + 1) 0 1)
          (c.segmentArcLength (i + 1) 0 1) (by omega) (by linarith)
        exact ⟨m1, fun he => by have := m2 he; linarith⟩
      · by_cases hlt2 : c.segmentArcLength (i + 1) 0 1 < d₂
        · have e1 : ArcLength.scanLoop c i d₁ L₁ =
              ⟨i + 1, d₁, c.segmentArcLength (i + 1) 0 1⟩ := by
            rw [ArcLength.scanLoop, dif_pos h1, if_neg hlt1]
          have e2 : ArcLength.scanLoop c i d₂ L₂ = ArcLength.scanLoop c (i + 1)
              (d₂ - c.segmentArcLength (i + 1) 0 1) (c.segmentArcLength (i + 1) 0 1) := by
            rw [ArcLength.scanLoop, dif_pos h1, if_pos hlt2]
          rw [e1, e2]
          have hge := scanLoop_ge c (i + 1) (d₂ - c.segmentArcLength (i + 1) 0 1)
            (c.segmentArcLength (i + 1) 0 1)
          constructor
          · show i + 1 ≤ _
            omega
          · intro he
            exfalso
            have he2 : i + 1 = (ArcLength.scanLoop c (i + 1)
              (d₂ - c.segmentArcLength (i + 1) 0 1)
              (c.segmentArcLength (i + 1) 0 1)).bIndex := he
            omega
        · have e1 : ArcLength.scanLoop c i d₁ L₁ =
              ⟨i + 1, d₁, c.segmentArcLength (i + 1) 0 1⟩ := by
            rw [ArcLength.scanLoop, dif_pos h1, if_neg hlt1]
          have e2 : ArcLength.scanLoop c i d₂ L₂ =
              ⟨i + 1, d₂, c.segmentArcLength (i + 1) 0 1⟩ := by
            rw [ArcLength.scanLoop, dif_pos h1, if_neg hlt2]
          rw [e1, e2]
          exact ⟨le_rfl, fun _ => by ring⟩
    · have e1 : ArcLength.scanLoop c i d₁ L₁ = ⟨i + 1, d₁, L₁⟩ := by
        rw [ArcLength.scanLoop, dif_neg h1]
      have e2 : ArcLength.scanLoop c i d₂ L₂ = ⟨i + 1, d₂, L₂⟩ := by
        rw [ArcLength.scanLoop, dif_neg h1]
      rw [e1, e2]
      exact ⟨le_rfl, fun _ => by ring⟩

theorem paramOf_mono_p {c : Curve} (wf : c.WellFormed) {i : ℕ}
    (hi : i < c.segmentCount) {p q : ℚ} (h : p ≤ q) :
    paramOf c i p ≤ paramOf c i q := by
  have hstep := wf.segmentT_step i hi
  unfold paramOf
  nlinarith

theorem arcLength_lt_inv {c : Curve} (wf : c.WellFormed) {i : ℕ}
    (hi : i < c.segmentCount) {p q : ℚ} (hp0 : 0 ≤ p) (hp1 : p ≤ 1)
    (hq0 : 0 ≤ q) (hq1 : q ≤ 1)
    (h : c.segmentArcLength i 0 p < c.segmentArcLength i 0 q) : p < q := by
  by_contra hc
  push_neg at hc
  exact absurd (wf.arcLength_mono i hi q p hq0 hc hp1) (not_le.mpr h)

/-- C6: `solveLength` is monotone in the requested distance: for a fixed
well-formed curve and starting parameter, a larger (nonnegative) distance
never yields a smaller parameter. -/
theorem solveLength_mono {c : Curve} (wf : c.WellFormed) {a : ℚ}
    (ha0 : 0 ≤ a) (ha1 : a ≤ c.getMaxT) {d₁ d₂ : ℚ} (h0 : 0 ≤ d₁) (h12 : d₁ ≤ d₂) :
    ArcLength.solveLength c a d₁ ≤ ArcLength.solveLength c a d₂ := by
  rcases eq_or_lt_of_le h12 with heq | hlt
  · rw [heq]
  obtain ⟨hj, hal, har⟩ := wf.segmentForT_spec a ha0 ha1
  obtain ⟨hp0, hp1⟩ := localPercent_bounds wf ha0 ha1
  by_cases hs1 : c.segmentArcLength (c.segmentForT a) (localPercent c a) 1 < d₁
  · have hs2 : c.segmentArcLength (c.segmentForT a) (localPercent c a) 1 < d₂ :=
      lt_trans hs1 hlt
    have hd1pos : 0 < d₁ - c.segmentArcLength (c.segmentForT a) (localPercent c a) 1 := by
      linarith
    have hd2pos : 0 < d₂ - c.segmentArcLength (c.segmentForT a) (localPercent c a) 1 := by
      linarith
    obtain ⟨a11, a21, a31, a41, a51⟩ := scanLoop_spec c (c.segmentForT a)
      (d₁ - c.segmentArcLength (c.segmentForT a) (localPercent c a) 1)
      (c.segmentArcLength (c.segmentForT a) (localPercent c a) 1) hj hd1pos
    obtain ⟨a12, a22, a32, a42, a52⟩ := scanLoop_spec c (c.segmentForT a)
      (d₂ - c.segmentArcLength (c.segmentForT a) (localPercent c a) 1)
      (c.segmentArcLength (c.segmentForT a) (localPercent c a) 1) hj hd2pos
    obtain ⟨hidx, hres⟩ := scanLoop_mono c (c.segmentForT a)
      (d₁ - c.segmentArcLength (c.segmentForT a) (localPercent c a) 1)
      (d₂ - c.segmentArcLength (c.segmentForT a) (localPercent c a) 1)
      (c.segmentArcLength (c.segmentForT a) (localPercent c a) 1)
      (c.segmentArcLength (c.segmentForT a) (localPercent c a) 1) (by linarith)
    by_cases hsat1 : (ArcLength.scanLoop c (c.segmentForT a)
        (d₁ - c.segmentArcLength (c.segmentForT a) (localPercent c a) 1)
        (c.segmentArcLength (c.segmentForT a) (localPercent c a) 1)).bIndex =
        c.segmentCount
    · have hsat2 : (ArcLength.scanLoop c (c.segmentForT a)
          (d₂ - c.segmentArcLength (c.segmentForT a) (localPercent c a) 1)
          (c.segmentArcLength (c.segmentForT a) (localPercent c a) 1)).bIndex =
          c.segmentCount := by omega
      rw [solveLength_eq_scanSat hs1 hsat1, solveLength_eq_scanSat hs2 hsat2]
    · have hb1 : (ArcLength.scanLoop c (c.segmentForT a)
          (d₁ - c.segmentArcLength (c.segmentForT a) (localPercent c a) 1)
          (c.segmentArcLength (c.segmentForT a) (localPercent c a) 1)).bIndex <
          c.segmentCount := lt_of_le_of_ne a21 hsat1
      obtain ⟨hm01, hm11⟩ := solveSegment_mem (c := c)
        (i := (ArcLength.scanLoop c (c.segmentForT a)
          (d₁ - c.segmentArcLength (c.segmentForT a) (localPercent c a) 1)
          (c.segmentArcLength (c.segmentForT a) (localPercent c a) 1)).bIndex)
        (d := (ArcLength.scanLoop c (c.segmentForT a)
          (d₁ - c.segmentArcLength (c.segmentForT a) (localPercent c a) 1)
          (c.segmentArcLength (c.segmentForT a) (localPercent c a) 1)).desiredLength)
        (m := (ArcLength.scanLoop c (c.segmentForT a)
          (d₁ - c.segmentArcLength (c.segmentForT a) (localPercent c a) 1)
          (c.segmentArcLength (c.segmentForT a) (localPercent c a) 1)).bLength)
        (p := (0:ℚ)) (by norm_num)
      rw [solveLength_eq_scanHit hs1 hsat1]
      by_cases hsat2 : (ArcLength.scanLoop c (c.segmentForT a)
          (d₂ - c.segmentArcLength (c.segmentForT a) (localPercent c a) 1)
          (c.segmentArcLength (c.segmentForT a) (localPercent c a) 1)).bIndex =
          c.segmentCount
      · rw [solveLength_eq_scanSat hs2 hsat2]
        exact (paramOf_mem wf hb1 hm01 hm11).2
      · have hb2 : (ArcLength.scanLoop c (c.segmentForT a)
            (d₂ - c.segmentArcLength (c.segmentForT a) (localPercent c a) 1)
            (c.segmentArcLength (c.segmentForT a) (localPercent c a) 1)).bIndex <
            c.segmentCount := lt_of_le_of_ne a22 hsat2
        obtain ⟨hm02, hm12⟩ := solveSegment_mem (c := c)
          (i := (ArcLength.scanLoop c (c.segmentForT a)
            (d₂ - c.segmentArcLength (c.segmentForT a) (localPercent c a) 1)
            (c.segmentArcLength (c.segmentForT a) (localPercent c a) 1)).bIndex)
          (d := (ArcLength.scanLoop c (c.segmentForT a)
            (d₂ - c.segmentArcLength (c.segmentForT a) (localPercent c a) 1)
            (c.segmentArcLength (c.segmentForT a) (localPercent c a) 1)).desiredLength)
          (m := (ArcLength.scanLoop c (c.segmentForT a)
            (d₂ - c.segmentArcLength (c.segmentForT a) (localPercent c a) 1)
            (c.segmentArcLength (c.segmentForT a) (localPercent c a) 1)).bLength)
          (p := (0:ℚ)) (by norm_num)
        rw [solveLength_eq_scanHit hs2 hsat2]
        rcases lt_or_eq_of_le hidx with hij | hij
        · obtain ⟨w1, w2⟩ := paramOf_bounds wf hb1 hm01 hm11
          obtain ⟨w3, w4⟩ := paramOf_bounds wf hb2 hm02 hm12
          have hmid := wf.segmentT_le (Nat.succ_le_of_lt hij) (le_of_lt hb2)
          linarith
        · obtain ⟨e11, e21⟩ := a51 hb1
          obtain ⟨e12, e22⟩ := a52 hb2
          have hrd := hres hij
          obtain ⟨hcl1, hq01, hq11, hroot1⟩ := solveSegment_root
            (m := (ArcLength.scanLoop c (c.segmentForT a)
              (d₁ - c.segmentArcLength (c.segmentForT a) (localPercent c a) 1)
              (c.segmentArcLength (c.segmentForT a) (localPercent c a) 1)).bLength)
            wf hb1 le_rfl (by norm_num) (le_of_lt a31) (by rw [e11] at e21; exact e21)
          obtain ⟨hcl2, hq02, hq12, hroot2⟩ := solveSegment_root
            (m := (ArcLength.scanLoop c (c.segmentForT a)
              (d₂ - c.segmentArcLength (c.segmentForT a) (localPercent c a) 1)
              (c.segmentArcLength (c.segmentForT a) (localPercent c a) 1)).bLength)
            wf hb2 le_rfl (by norm_num) (le_of_lt a32) (by rw [e12] at e22; exact e22)
          rw [← hij] at hroot2 hq02 hq12 ⊢
          have hFlt : c.segmentArcLength (ArcLength.scanLoop c (c.segmentForT a)
              (d₁ - c.segmentArcLength (c.segmentForT a) (localPercent c a) 1)
              (c.segmentArcLength (c.segmentForT a) (localPercent c a) 1)).bIndex 0
              (ArcLengthSolvePrivate.solveSegment c (ArcLength.scanLoop c (c.segmentForT a)
                (d₁ - c.segmentArcLength (c.segmentForT a) (localPercent c a) 1)
                (c.segmentArcLength (c.segmentForT a) (localPercent c a) 1)).bIndex
                (ArcLength.scanLoop c (c.segmentForT a)
                  (d₁ - c.segmentArcLength (c.segmentForT a) (localPercent c a) 1)
                  (c.segmentArcLength (c.segmentForT a) (localPercent c a) 1)).desiredLength
                (ArcLength.scanLoop c (c.segmentForT a)
                  (d₁ - c.segmentArcLength (c.segmentForT a) (localPercent c a) 1)
                  (c.segmentArcLength (c.segmentForT a) (localPercent c a) 1)).bLength 0) <
              c.segmentArcLength (ArcLength.scanLoop c (c.segmentForT a)
              (d₁ - c.segmentArcLength (c.segmentForT a) (localPercent c a) 1)
              (c.segmentArcLength (c.segmentForT a) (localPercent c a) 1)).bIndex 0
              (ArcLengthSolvePrivate.solveSegment c (ArcLength.scanLoop c (c.segmentForT a)
                (d₁ - c.segmentArcLength (c.segmentForT a) (localPercent c a) 1)
                (c.segmentArcLength (c.segmentForT a) (localPercent c a) 1)).bIndex
                (ArcLength.scanLoop c (c.segmentForT a)
                  (d₂ - c.segmentArcLength (c.segmentForT a) (localPercent c a) 1)
                  (c.segmentArcLength (c.segmentForT a) (localPercent c a) 1)).desiredLength
                (ArcLength.scanLoop c (c.segmentForT a)
                  (d₂ - c.segmentArcLength (c.segmentForT a) (localPercent c a) 1)
                  (c.segmentArcLength (c.segmentForT a) (localPercent c a) 1)).bLength 0) := by
            rw [hroot1, hroot2]
            linarith
          have hrlt := arcLength_lt_inv wf hb1 hq01 hq11 hq02 hq12 hFlt
          exact paramOf_mono_p wf hb1 (le_of_lt hrlt)
  · rw [solveLength_eq_stay hs1 (ne_of_lt hj)]
    obtain ⟨hm01, hm11⟩ := solveSegment_mem (c := c) (i := c.segmentForT a) (d := d₁)
      (m := c.segmentArcLength (c.segmentForT a) (localPercent c a) 1)
      (p := localPercent c a) hp1
    by_cases hs2 : c.segmentArcLength (c.segmentForT a) (localPercent c a) 1 < d₂
    · have hd2pos : 0 < d₂ - c.segmentArcLength (c.segmentForT a) (localPercent c a) 1 := by
        linarith
      obtain ⟨a12, a22, a32, a42, a52⟩ := scanLoop_spec c (c.segmentForT a)
        (d₂ - c.segmentArcLength (c.segmentForT a) (localPercent c a) 1)
        (c.segmentArcLength (c.segmentForT a) (localPercent c a) 1) hj hd2pos
      obtain ⟨w1, w2⟩ := paramOf_bounds wf hj (le_trans hp0 hm01) hm11
      by_cases hsat2 : (ArcLength.scanLoop c (c.segmentForT a)
          (d₂ - c.segmentArcLength (c.segmentForT a) (localPercent c a) 1)
          (c.segmentArcLength (c.segmentForT a) (localPercent c a) 1)).bIndex =
          c.segmentCount
      · rw [solveLength_eq_scanSat hs2 hsat2]
        have hmx := wf.segmentT_le_maxT (i := c.segmentForT a + 1) hj
        linarith
      · have hb2 : (ArcLength.scanLoop c (c.segmentForT a)
            (d₂ - c.segmentArcLength (c.segmentForT a) (localPercent c a) 1)
            (c.segmentArcLength (c.segmentForT a) (localPercent c a) 1)).bIndex <
            c.segmentCount := lt_of_le_of_ne a22 hsat2
        obtain ⟨hm02, hm12⟩ := solveSegment_mem (c := c)
          (i := (ArcLength.scanLoop c (c.segmentForT a)
            (d₂ - c.segmentArcLength (c.segmentForT a) (localPercent c a) 1)
            (c.segmentArcLength (c.segmentForT a) (localPercent c a) 1)).bIndex)
          (d := (ArcLength.scanLoop c (c.segmentForT a)
            (d₂ - c.segmentArcLength (c.segmentForT a) (localPercent c a) 1)
            (c.segmentArcLength (c.segmentForT a) (localPercent c a) 1)).desiredLength)
          (m := (ArcLength.scanLoop c (c.segmentForT a)
            (d₂ - c.segmentArcLength (c.segmentForT a) (localPercent c a) 1)
            (c.segmentArcLength (c.segmentForT a) (localPercent c a) 1)).bLength)
          (p := (0:ℚ)) (by norm_num)
        rw [solveLength_eq_scanHit hs2 hsat2]
        obtain ⟨w3, w4⟩ := paramOf_bounds wf hb2 hm02 hm12
        have hmid := wf.segmentT_le a12 (le_of_lt hb2)
        linarith
    · rw [solveLength_eq_stay hs2 (ne_of_lt hj)]
      obtain ⟨hcl1, hq01, hq11, hroot1⟩ := solveSegment_root
        (m := c.segmentArcLength (c.segmentForT a) (localPercent c a) 1)
        wf hj hp0 hp1 h0 (le_of_not_lt hs1)
      obtain ⟨hcl2, hq02, hq12, hroot2⟩ := solveSegment_root
        (m := c.segmentArcLength (c.segmentForT a) (localPercent c a) 1)
        wf hj hp0 hp1 (le_trans h0 h12) (le_of_not_lt hs2)
      have hsub1 := wf.arcLength_sub (c.segmentForT a) hj (localPercent c a)
        (ArcLengthSolvePrivate.solveSegment c (c.segmentForT a) d₁
          (c.segmentArcLength (c.segmentForT a) (localPercent c a) 1) (localPercent c a))
      have hsub2 := wf.arcLength_sub (c.segmentForT a) hj (localPercent c a)
        (ArcLengthSolvePrivate.solveSegment c (c.segmentForT a) d₂
          (c.segmentArcLength (c.segmentForT a) (localPercent c a) 1) (localPercent c a))
      have hFlt : c.segmentArcLength (c.segmentForT a) 0
          (ArcLengthSolvePrivate.solveSegment c (c.segmentForT a) d₁
            (c.segmentArcLength (c.segmentForT a) (localPercent c a) 1) (localPercent c a)) <
          c.segmentArcLength (c.segmentForT a) 0
          (ArcLengthSolvePrivate.solveSegment c (c.segmentForT a) d₂
            (c.segmentArcLength (c.segmentForT a) (localPercent c a) 1) (localPercent c a)) := by
        rw [hsub1] at hroot1
        rw [hsub2] at hroot2
        linarith
      have hrlt := arcLength_lt_inv wf hj (le_trans hp0 hq01) hq11
        (le_trans hp0 hq02) hq12 hFlt
      exact paramOf_mono_p wf hj (le_of_lt hrlt)

/-- Witness for C6: on the demonstration curve from parameter 0, distance 2
yields a parameter no larger than the one for distance 5. -/
theorem solveLength_mono_witness :
    (0:ℚ) ≤ 0 ∧ (0:ℚ) ≤ demoCurve.getMaxT ∧ (0:ℚ) ≤ 2 ∧ (2:ℚ) ≤ 5 ∧
    ArcLength.solveLength demoCurve 0 2 ≤ ArcLength.solveLength demoCurve 0 5 := by
  have h1 : (0:ℚ) ≤ 0 := le_rfl
  have h2 : (0:ℚ) ≤ demoCurve.getMaxT := by norm_num [demoCurve]
  have h3 : (0:ℚ) ≤ 2 := by norm_num
  have h4 : (2:ℚ) ≤ 5 := by norm_num
  exact ⟨h1, h2, h3, h4, solveLength_mono demoCurve_wf h1 h2 h3 h4⟩

/-! ### The partition loop -/

theorem getD_set_self {l : List ℚ} {i : ℕ} (h : i < l.length) (x : ℚ) :
    (l.set i x).getD i 0 = x := by
  rw [List.getD_eq_getElem?_getD, List.getElem?_set_eq_of_lt x h]
  rfl

theorem getD_set_ne {l : List ℚ} {i m : ℕ} (h : i ≠ m) (x : ℚ) :
    (l.set i x).getD m 0 = l.getD m 0 := by
  rw [List.getD_eq_getElem?_getD, List.getD_eq_getElem?_getD, List.getElem?_set_ne h]

theorem partitionLoop_stop (spline : Curve) (segLens : List ℚ) (L : ℚ) (stop : ℕ)
    (pieces : List ℚ) (i : ℕ) (rem prev : ℚ) (aIndex : ℕ) (h : ¬ i < stop) :
    ArcLength.partitionLoop spline segLens L stop pieces i rem prev aIndex = pieces := by
  rw [ArcLength.partitionLoop, dif_neg h]

theorem partitionLoop_step (spline : Curve) (segLens : List ℚ) (L : ℚ) (stop : ℕ)
    (pieces : List ℚ) (i : ℕ) (rem prev : ℚ) (aIndex : ℕ) (h : i < stop) :
    ArcLength.partitionLoop spline segLens L stop pieces i rem prev aIndex =
      ArcLength.partitionLoop spline segLens L stop
        (pieces.set i (spline.segmentT (ArcLength.consume segLens aIndex L rem).1 +
          ArcLengthSolvePrivate.solveSegment spline (ArcLength.consume segLens aIndex L rem).1
            (ArcLength.consume segLens aIndex L rem).2.1
            (ArcLength.consume segLens aIndex L rem).2.2
            (if aIndex = (ArcLength.consume segLens aIndex L rem).1 then prev else 0) *
          (spline.segmentT ((ArcLength.consume segLens aIndex L rem).1 + 1) -
            spline.segmentT (ArcLength.consume segLens aIndex L rem).1)))
        (i + 1)
        ((ArcLength.consume segLens aIndex L rem).2.2 -
          (ArcLength.consume segLens aIndex L rem).2.1)
        (ArcLengthSolvePrivate.solveSegment spline (ArcLength.consume segLens aIndex L rem).1
          (ArcLength.consume segLens aIndex L rem).2.1
          (ArcLength.consume segLens aIndex L rem).2.2
          (if aIndex = (ArcLength.consume segLens aIndex L rem).1 then prev else 0))
        (ArcLength.consume segLens aIndex L rem).1 := by
  rw [ArcLength.partitionLoop, dif_pos h]

theorem partitionLoop_invariant {c : Curve} (wf : c.WellFormed) {L : ℚ} (hL : 0 < L)
    (stop : ℕ) (hstop : ((stop:ℚ) - 1) * L ≤ ArcLength.totalArcLength c) :
    ∀ (i : ℕ) (pieces : List ℚ) (rem prev : ℚ) (aIndex : ℕ),
      1 ≤ i → aIndex < c.segmentCount → 0 ≤ prev → prev ≤ 1 →
      rem = c.segmentArcLength aIndex prev 1 →
      cum c aIndex prev = ((i:ℚ) - 1) * L →
      (ArcLength.partitionLoop c (ArcLength.segmentLengths c) L stop pieces i
        rem prev aIndex).length = pieces.length ∧
      (∀ m, m < pieces.length → (m < i ∨ stop ≤ m) →
        (ArcLength.partitionLoop c (ArcLength.segmentLengths c) L stop pieces i
          rem prev aIndex).getD m 0 = pieces.getD m 0) ∧
      (∀ m, m < pieces.length → i ≤ m → m < stop →
        ∃ j p, j < c.segmentCount ∧ 0 ≤ p ∧ p ≤ 1 ∧ cum c j p = (m:ℚ) * L ∧
          (ArcLength.partitionLoop c (ArcLength.segmentLengths c) L stop pieces i
            rem prev aIndex).getD m 0 = paramOf c j p) := by
  suffices h : ∀ k i (pieces : List ℚ) (rem prev : ℚ) (aIndex : ℕ), stop - i ≤ k →
      1 ≤ i → aIndex < c.segmentCount → 0 ≤ prev → prev ≤ 1 →
      rem = c.segmentArcLength aIndex prev 1 →
      cum c aIndex prev = ((i:ℚ) - 1) * L →
      (ArcLength.partitionLoop c (ArcLength.segmentLengths c) L stop pieces i
        rem prev aIndex).length = pieces.length ∧
      (∀ m, m < pieces.length → (m < i ∨ stop ≤ m) →
        (ArcLength.partitionLoop c (ArcLength.segmentLengths c) L stop pieces i
          rem prev aIndex).getD m 0 = pieces.getD m 0) ∧
      (∀ m, m < pieces.length → i ≤ m → m < stop →
        ∃ j p, j < c.segmentCount ∧ 0 ≤ p ∧ p ≤ 1 ∧ cum c j p = (m:ℚ) * L ∧
          (ArcLength.partitionLoop c (ArcLength.segmentLengths c) L stop pieces i
            rem prev aIndex).getD m 0 = paramOf c j p) by
    exact fun i pieces rem prev aIndex => h (stop - i) i pieces rem prev aIndex le_rfl
  intro k
  induction k with
  | zero =>
    intro i pieces rem prev aIndex hk h1 hA hprev0 hprev1 hrem hcum
    have hstop' : ¬ i < stop := by omega
    rw [partitionLoop_stop c (ArcLength.segmentLengths c) L stop pieces i rem prev
      aIndex hstop']
    exact ⟨rfl, fun m _ _ => rfl, fun m _ him hms => absurd hms (by omega)⟩
  | succ k ih =>
    intro i pieces rem prev aIndex hk h1 hA hprev0 hprev1 hrem hcum
    by_cases hi : i < stop
    · have hsubA := wf.arcLength_sub aIndex hA prev 1
      have hsuccA : sumLens c (aIndex + 1) =
          sumLens c aIndex + c.segmentArcLength aIndex 0 1 := rfl
      have hcumA : cum c aIndex prev =
          sumLens c aIndex + c.segmentArcLength aIndex 0 prev := rfl
      have hcast : (i : ℚ) ≤ (stop : ℚ) - 1 := by
        have : (i : ℚ) + 1 ≤ (stop : ℚ) := by exact_mod_cast hi
        linarith
      have hiL : (i : ℚ) * L ≤ ArcLength.totalArcLength c := by
        have := mul_le_mul_of_nonneg_right hcast (le_of_lt hL)
        linarith
      have htot := totalArcLength_eq_sumLens c
      have havail : L ≤ rem + (sumLens c c.segmentCount - sumLens c (aIndex + 1)) := by
        have : rem + (sumLens c c.segmentCount - sumLens c (aIndex + 1)) =
            ArcLength.totalArcLength c - ((i:ℚ) - 1) * L := by
          rw [hrem, htot, hsubA, hsuccA, ← hcum, hcumA]
          ring
        rw [this]
        linarith
      obtain ⟨cA, cB, cC, cD, cE, cF, cG⟩ := consume_spec wf aIndex L rem hA hL havail
      set s : ℕ × ℚ × ℚ := ArcLength.consume (ArcLength.segmentLengths c) aIndex L rem
        with hs
      rw [partitionLoop_step c (ArcLength.segmentLengths c) L stop pieces i rem prev
        aIndex hi]
      have hsucc' : sumLens c (s.1 + 1) =
          sumLens c s.1 + c.segmentArcLength s.1 0 1 := rfl
      by_cases haij : aIndex = s.1
      · rw [if_pos haij]
        obtain ⟨hd', hrem'⟩ := cF haij.symm
        have hdm : s.2.1 ≤ c.segmentArcLength s.1 prev 1 := by
          rw [← haij, ← hrem]
          rw [hrem'] at cD
          exact cD
        obtain ⟨hcl, hple, hr1, hroot⟩ := solveSegment_root (m := s.2.2) wf cB
          hprev0 hprev1 (le_of_lt cC) hdm
        have hr0 : 0 ≤ ArcLengthSolvePrivate.solveSegment c s.1 s.2.1 s.2.2 prev :=
          le_trans hprev0 hple
        have hsplit := wf.arcLength_split s.1 cB prev
          (ArcLengthSolvePrivate.solveSegment c s.1 s.2.1 s.2.2 prev) 1
        have hremS : s.2.2 = c.segmentArcLength s.1 prev 1 := by
          rw [hrem', hrem, haij]
        have hremNew : s.2.2 - s.2.1 = c.segmentArcLength s.1
            (ArcLengthSolvePrivate.solveSegment c s.1 s.2.1 s.2.2 prev) 1 := by
          linarith [hsplit, hroot, hremS]
        have hsub0 := wf.arcLength_sub s.1 cB prev
          (ArcLengthSolvePrivate.solveSegment c s.1 s.2.1 s.2.2 prev)
        have hcum2 : cum c s.1 prev = ((i:ℚ) - 1) * L := by
          rw [← haij]; exact hcum
        have hcumNew : cum c s.1 (ArcLengthSolvePrivate.solveSegment c s.1 s.2.1 s.2.2 prev) =
            (((i + 1 : ℕ) : ℚ) - 1) * L := by
          have e1 : cum c s.1 (ArcLengthSolvePrivate.solveSegment c s.1 s.2.1 s.2.2 prev) =
              sumLens c s.1 + c.segmentArcLength s.1 0
                (ArcLengthSolvePrivate.solveSegment c s.1 s.2.1 s.2.2 prev) := rfl
          have e2 : cum c s.1 prev =
              sumLens c s.1 + c.segmentArcLength s.1 0 prev := rfl
          rw [e1]
          push_cast
          linarith [e2, hsub0, hroot, hd', hcum2]
        obtain ⟨ihLen, ihKeep, ihEntry⟩ := ih (i + 1)
          (pieces.set i (c.segmentT s.1 +
            ArcLengthSolvePrivate.solveSegment c s.1 s.2.1 s.2.2 prev *
              (c.segmentT (s.1 + 1) - c.segmentT s.1)))
          (s.2.2 - s.2.1) (ArcLengthSolvePrivate.solveSegment c s.1 s.2.1 s.2.2 prev)
          s.1 (by omega) (by omega) cB hr0 hr1 hremNew hcumNew
        rw [List.length_set] at ihLen
        refine ⟨ihLen, ?_, ?_⟩
        · intro m hm hcases
          rw [ihKeep m (by rw [List.length_set]; exact hm) (by omega),
            getD_set_ne (by omega) _]
        · intro m hm him hms
          rcases Nat.lt_or_ge m (i + 1) with hmi | hmi
          · have hmieq : m = i := by omega
            subst hmieq
            refine ⟨s.1, ArcLengthSolvePrivate.solveSegment c s.1 s.2.1 s.2.2 prev,
              cB, hr0, hr1, by rw [hcumNew]; push_cast; ring, ?_⟩
            rw [ihKeep m (by rw [List.length_set]; exact hm) (by omega),
              getD_set_self hm _]
            rfl
          · exact ihEntry m (by rw [List.length_set]; exact hm) hmi hms
      · rw [if_neg haij]
        have hij : aIndex < s.1 := lt_of_le_of_ne cA haij
        have hG := cG hij
        have hdm : s.2.1 ≤ c.segmentArcLength s.1 0 1 := by rw [← hG]; exact cD
        obtain ⟨hcl, hple, hr1, hroot⟩ := solveSegment_root (m := s.2.2) wf cB
          le_rfl zero_le_one (le_of_lt cC) hdm
        have hr0 : 0 ≤ ArcLengthSolvePrivate.solveSegment c s.1 s.2.1 s.2.2 0 := hple
        have hsplit := wf.arcLength_split s.1 cB 0
          (ArcLengthSolvePrivate.solveSegment c s.1 s.2.1 s.2.2 0) 1
        have hzero := wf.arcLength_self s.1 cB 0
        have hremNew : s.2.2 - s.2.1 = c.segmentArcLength s.1
            (ArcLengthSolvePrivate.solveSegment c s.1 s.2.1 s.2.2 0) 1 := by
          linarith [hsplit, hroot, hG]
        have hcumNew : cum c s.1 (ArcLengthSolvePrivate.solveSegment c s.1 s.2.1 s.2.2 0) =
            (((i + 1 : ℕ) : ℚ) - 1) * L := by
          have e1 : cum c s.1 (ArcLengthSolvePrivate.solveSegment c s.1 s.2.1 s.2.2 0) =
              sumLens c s.1 + c.segmentArcLength s.1 0
                (ArcLengthSolvePrivate.solveSegment c s.1 s.2.1 s.2.2 0) := rfl
          rw [e1, hroot]
          push_cast
          linarith [cE, hsucc', hG, hsuccA, hsubA, hrem, hcumA, hcum]
        obtain ⟨ihLen, ihKeep, ihEntry⟩ := ih (i + 1)
          (pieces.set i (c.segmentT s.1 +
            ArcLengthSolvePrivate.solveSegment c s.1 s.2.1 s.2.2 0 *
              (c.segmentT (s.1 + 1) - c.segmentT s.1)))
          (s.2.2 - s.2.1) (ArcLengthSolvePrivate.solveSegment c s.1 s.2.1 s.2.2 0)
          s.1 (by omega) (by omega) cB hr0 hr1 hremNew hcumNew
        rw [List.length_set] at ihLen
        refine ⟨ihLen, ?_, ?_⟩
        · intro m hm hcases
          rw [ihKeep m (by rw [List.length_set]; exact hm) (by omega),
            getD_set_ne (by omega) _]
        · intro m hm him hms
          rcases Nat.lt_or_ge m (i + 1) with hmi | hmi
          · have hmieq : m = i := by omega
            subst hmieq
            refine ⟨s.1, ArcLengthSolvePrivate.solveSegment c s.1 s.2.1 s.2.2 0,
              cB, hr0, hr1, by rw [hcumNew]; push_cast; ring, ?_⟩
            rw [ihKeep m (by rw [List.length_set]; exact hm) (by omega),
              getD_set_self hm _]
            rfl
          · exact ihEntry m (by rw [List.length_set]; exact hm) hmi hms
    · rw [partitionLoop_stop c (ArcLength.segmentLengths c) L stop pieces i rem prev
        aIndex hi]
      exact ⟨rfl, fun m _ _ => rfl, fun m _ him hms => absurd hms (by omega)⟩

theorem getD_replicate {n m : ℕ} (h : m < n) (x : ℚ) :
    (List.replicate n x).getD m 0 = x := by
  rw [List.getD_eq_getElem?_getD, List.getElem?_replicate]
  simp [h]

theorem maxT_nonneg {c : Curve} (wf : c.WellFormed) : 0 ≤ c.getMaxT := by
  have h := wf.segmentT_le_maxT (Nat.zero_le c.segmentCount)
  rwa [wf.segmentT_zero] at h

theorem cum_zero_zero {c : Curve} (wf : c.WellFormed) : cum c 0 0 = 0 := by
  unfold cum
  rw [wf.arcLength_self 0 wf.segments_pos 0]
  simp [sumLens]

/-- C4: `partition(curve, L)` returns exactly `floor(totalArcLength / L) + 1`
entries, its first entry is 0, each pair of consecutive entries is exactly `L`
apart in arc length, and the leftover between the last entry and `maxT` is
shorter than `L` (so it is not represented as its own boundary). -/
theorem partition_spec {c : Curve} (wf : c.WellFormed) {L : ℚ} (hL : 0 < L) :
    (ArcLength.partition c L).length =
      (ArcLength.totalArcLength c / L).floor.toNat + 1 ∧
    (ArcLength.partition c L).getD 0 0 = 0 ∧
    (∀ m, m + 1 < (ArcLength.partition c L).length →
      arcLengthBetween c ((ArcLength.partition c L).getD m 0)
        ((ArcLength.partition c L).getD (m + 1) 0) = L) ∧
    arcRemaining c ((ArcLength.partition c L).getD
      ((ArcLength.partition c L).length - 1) 0) < L := by
  have htotnn : 0 ≤ ArcLength.totalArcLength c := totalArcLength_nonneg wf
  have hfl0 : 0 ≤ (ArcLength.totalArcLength c / L).floor :=
    Int.floor_nonneg.mpr (div_nonneg htotnn (le_of_lt hL))
  have hNcast : (((ArcLength.totalArcLength c / L).floor.toNat : ℕ) : ℚ) =
      (((ArcLength.totalArcLength c / L).floor : ℤ) : ℚ) := by
    exact_mod_cast congrArg (fun z : ℤ => (z : ℚ)) (Int.toNat_of_nonneg hfl0)
  have hNL : (((ArcLength.totalArcLength c / L).floor.toNat : ℕ) : ℚ) * L ≤
      ArcLength.totalArcLength c := by
    rw [hNcast]
    rw [← le_div_iff₀ hL]
    exact Int.floor_le _
  have hNL2 : ArcLength.totalArcLength c <
      ((((ArcLength.totalArcLength c / L).floor.toNat : ℕ) : ℚ) + 1) * L := by
    rw [hNcast]
    rw [← div_lt_iff₀ hL]
    exact Int.lt_floor_add_one _
  have hunf : ArcLength.partition c L = ArcLength.partitionLoop c
      (ArcLength.segmentLengths c) L ((ArcLength.totalArcLength c / L).floor.toNat + 1)
      (List.replicate ((ArcLength.totalArcLength c / L).floor.toNat + 1) 0) 1
      ((ArcLength.segmentLengths c).getD 0 0) 0 0 := by
    simp only [ArcLength.partition, List.length_replicate]
    rfl
  obtain ⟨ihLen, ihKeep, ihEntry⟩ := partitionLoop_invariant wf hL
    ((ArcLength.totalArcLength c / L).floor.toNat + 1) (by push_cast; linarith) 1
    (List.replicate ((ArcLength.totalArcLength c / L).floor.toNat + 1) 0)
    ((ArcLength.segmentLengths c).getD 0 0) 0 0 le_rfl wf.segments_pos le_rfl
    zero_le_one (by rw [segmentLengths_getD c 0 wf.segments_pos])
    (by rw [cum_zero_zero wf]; push_cast; ring)
  rw [List.length_replicate] at ihLen ihKeep ihEntry
  have hval : ∀ m, m < (ArcLength.totalArcLength c / L).floor.toNat + 1 →
      arcToT c ((ArcLength.partition c L).getD m 0) = (m : ℚ) * L ∧
      0 ≤ (ArcLength.partition c L).getD m 0 ∧
      (ArcLength.partition c L).getD m 0 ≤ c.getMaxT := by
    intro m hm
    rcases Nat.eq_zero_or_pos m with hm0 | hm1
    · subst hm0
      rw [hunf, ihKeep 0 hm (Or.inl Nat.zero_lt_one), getD_replicate hm]
      refine ⟨?_, le_rfl, maxT_nonneg wf⟩
      rw [arcToT_zero wf]
      push_cast
      ring
    · obtain ⟨j, p, hj, hp0, hp1, hcum, hgd⟩ := ihEntry m hm hm1 hm
      rw [hunf, hgd]
      refine ⟨?_, (paramOf_mem wf hj hp0 hp1).1, (paramOf_mem wf hj hp0 hp1).2⟩
      rw [arcToT_paramOf wf hj hp0 hp1, hcum]
  have hlen : (ArcLength.partition c L).length =
      (ArcLength.totalArcLength c / L).floor.toNat + 1 := by
    rw [hunf, ihLen]
  refine ⟨hlen, ?_, ?_, ?_⟩
  · rw [hunf, ihKeep 0 (by omega) (Or.inl Nat.zero_lt_one), getD_replicate (by omega)]
  · intro m hm
    rw [hlen] at hm
    obtain ⟨hv1, _, _⟩ := hval m (by omega)
    obtain ⟨hw1, _, _⟩ := hval (m + 1) (by omega)
    unfold arcLengthBetween
    rw [hv1, hw1]
    push_cast
    ring
  · rw [hlen]
    obtain ⟨hv1, _, _⟩ := hval ((ArcLength.totalArcLength c / L).floor.toNat)
      (by omega)
    unfold arcRemaining
    have heq : (ArcLength.totalArcLength c / L).floor.toNat + 1 - 1 =
        (ArcLength.totalArcLength c / L).floor.toNat := by omega
    rw [heq, hv1]
    linarith

/-- Witness for C4: `partition` of the demonstration curve (total length 10)
with piece length 4 gives `floor(10/4) + 1 = 3` entries, L-spaced, with a
remainder shorter than 4. -/
theorem partition_spec_witness :
    (0:ℚ) < 4 ∧
    ((ArcLength.partition demoCurve 4).length =
      (ArcLength.totalArcLength demoCurve / 4).floor.toNat + 1 ∧
    (ArcLength.partition demoCurve 4).getD 0 0 = 0 ∧
    (∀ m, m + 1 < (ArcLength.partition demoCurve 4).length →
      arcLengthBetween demoCurve ((ArcLength.partition demoCurve 4).getD m 0)
        ((ArcLength.partition demoCurve 4).getD (m + 1) 0) = 4) ∧
    arcRemaining demoCurve ((ArcLength.partition demoCurve 4).getD
      ((ArcLength.partition demoCurve 4).length - 1) 0) < 4) :=
  ⟨by norm_num, partition_spec demoCurve_wf (by norm_num)⟩

/-- C3: `partitionN(curve, n)` returns exactly `n + 1` strictly increasing
parameters, the first 0 and the last exactly `curve.getMaxT()`, with every
consecutive pair exactly `totalArcLength / n` apart in arc length (so in
particular all interior pieces are of equal length). -/
theorem partitionN_spec {c : Curve} (wf : c.WellFormed) {n : ℕ} (hn : 1 ≤ n)
    (htot : 0 < ArcLength.totalArcLength c) :
    (ArcLength.partitionN c n).length = n + 1 ∧
    (ArcLength.partitionN c n).getD 0 0 = 0 ∧
    (ArcLength.partitionN c n).getD n 0 = c.getMaxT ∧
    (∀ m, m < n → (ArcLength.partitionN c n).getD m 0 <
      (ArcLength.partitionN c n).getD (m + 1) 0) ∧
    (∀ m, m < n → arcLengthBetween c ((ArcLength.partitionN c n).getD m 0)
      ((ArcLength.partitionN c n).getD (m + 1) 0) =
      ArcLength.totalArcLength c / (n : ℚ)) := by
  have hn0 : ((n:ℚ)) ≠ 0 := by
    have : (0:ℚ) < (n:ℚ) := by exact_mod_cast hn
    linarith
  have hL : 0 < ArcLength.totalArcLength c / (n : ℚ) :=
    div_pos htot (by exact_mod_cast hn)
  have hstop : ((n:ℚ) - 1) * (ArcLength.totalArcLength c / (n : ℚ)) ≤
      ArcLength.totalArcLength c := by
    have hfield : ((n:ℚ) - 1) * (ArcLength.totalArcLength c / (n : ℚ)) =
        ArcLength.totalArcLength c - ArcLength.totalArcLength c / (n : ℚ) := by
      field_simp
      ring
    rw [hfield]
    linarith
  have hunf : ArcLength.partitionN c n = ArcLength.partitionLoop c
      (ArcLength.segmentLengths c) (ArcLength.totalArcLength c / (n : ℚ)) n
      (((List.replicate (n + 1) 0).set 0 0).set n c.getMaxT) 1
      ((ArcLength.segmentLengths c).getD 0 0) 0 0 := rfl
  have hplen : (((List.replicate (n + 1) (0:ℚ)).set 0 0).set n c.getMaxT).length =
      n + 1 := by
    simp
  obtain ⟨ihLen, ihKeep, ihEntry⟩ := partitionLoop_invariant wf hL n hstop 1
    (((List.replicate (n + 1) 0).set 0 0).set n c.getMaxT)
    ((ArcLength.segmentLengths c).getD 0 0) 0 0 le_rfl wf.segments_pos le_rfl
    zero_le_one (by rw [segmentLengths_getD c 0 wf.segments_pos])
    (by rw [cum_zero_zero wf]; push_cast; ring)
  rw [hplen] at ihLen ihKeep ihEntry
  have hp0 : (((List.replicate (n + 1) (0:ℚ)).set 0 0).set n c.getMaxT).getD 0 0 = 0 := by
    rw [getD_set_ne (by omega) _, getD_set_self (by simp) _]
  have hpn : (((List.replicate (n + 1) (0:ℚ)).set 0 0).set n c.getMaxT).getD n 0 =
      c.getMaxT := by
    rw [getD_set_self (by simp) _]
  have hval : ∀ m, m ≤ n →
      arcToT c ((ArcLength.partitionN c n).getD m 0) =
        (m : ℚ) * (ArcLength.totalArcLength c / (n : ℚ)) ∧
      0 ≤ (ArcLength.partitionN c n).getD m 0 ∧
      (ArcLength.partitionN c n).getD m 0 ≤ c.getMaxT := by
    intro m hm
    rcases Nat.eq_zero_or_pos m with hm0 | hm1
    · subst hm0
      rw [hunf, ihKeep 0 (by omega) (Or.inl Nat.zero_lt_one), hp0]
      refine ⟨?_, le_rfl, maxT_nonneg wf⟩
      rw [arcToT_zero wf]
      push_cast
      ring
    · rcases Nat.lt_or_ge m n with hmn | hmn
      · obtain ⟨j, p, hj, hq0, hq1, hcum, hgd⟩ := ihEntry m (by omega) hm1 hmn
        rw [hunf, hgd]
        refine ⟨?_, (paramOf_mem wf hj hq0 hq1).1, (paramOf_mem wf hj hq0 hq1).2⟩
        rw [arcToT_paramOf wf hj hq0 hq1, hcum]
      · have hmeq : m = n := by omega
        subst hmeq
        rw [hunf, ihKeep m (by omega) (Or.inr le_rfl), hpn]
        refine ⟨?_, maxT_nonneg wf, le_rfl⟩
        rw [arcToT_maxT wf]
        field_simp
  refine ⟨by rw [hunf, ihLen], ?_, ?_, ?_, ?_⟩
  · rw [hunf, ihKeep 0 (by omega) (Or.inl Nat.zero_lt_one), hp0]
  · rw [hunf, ihKeep n (by omega) (Or.inr le_rfl), hpn]
  · intro m hm
    obtain ⟨hv1, hv2, hv3⟩ := hval m (by omega)
    obtain ⟨hw1, hw2, hw3⟩ := hval (m + 1) (by omega)
    apply arcToT_lt_of_lt wf hv2 hv3 hw2 hw3
    rw [hv1, hw1]
    have hmul := mul_lt_mul_of_pos_right
      (show (m:ℚ) < (m:ℚ) + 1 by linarith) hL
    push_cast
    linarith
  · intro m hm
    obtain ⟨hv1, hv2, hv3⟩ := hval m (by omega)
    obtain ⟨hw1, hw2, hw3⟩ := hval (m + 1) (by omega)
    unfold arcLengthBetween
    rw [hv1, hw1]
    push_cast
    ring

/-- Witness for C3: `partitionN` of the demonstration curve with `n = 2`. -/
theorem partitionN_spec_witness :
    1 ≤ 2 ∧ 0 < ArcLength.totalArcLength demoCurve ∧
    ((ArcLength.partitionN demoCurve 2).length = 2 + 1 ∧
    (ArcLength.partitionN demoCurve 2).getD 0 0 = 0 ∧
    (ArcLength.partitionN demoCurve 2).getD 2 0 = demoCurve.getMaxT ∧
    (∀ m, m < 2 → (ArcLength.partitionN demoCurve 2).getD m 0 <
      (ArcLength.partitionN demoCurve 2).getD (m + 1) 0) ∧
    (∀ m, m < 2 → arcLengthBetween demoCurve
      ((ArcLength.partitionN demoCurve 2).getD m 0)
      ((ArcLength.partitionN demoCurve 2).getD (m + 1) 0) =
      ArcLength.totalArcLength demoCurve / (2 : ℚ))) := by
  have h1 : 1 ≤ 2 := by norm_num
  have h2 : 0 < ArcLength.totalArcLength demoCurve := by
    norm_num [ArcLength.totalArcLength, ArcLength.segmentLengths, demoCurve,
      List.range_succ]
  exact ⟨h1, h2, partitionN_spec demoCurve_wf h1 h2⟩

/-- C10: when `lengthPerPiece` exceeds the curve's total arc length,
`partition` returns exactly the one-element sequence `[0]` — the single slot
keeps the output vector's value-initialized zero — and the Segment Solver is
never invoked. -/
theorem partition_degenerate {c : Curve} (wf : c.WellFormed) {L : ℚ}
    (hgt : ArcLength.totalArcLength c < L) :
    ArcLength.partition c L = [0] ∧ ArcLength.partitionSolverCalls c L = 0 := by
  have htotnn : 0 ≤ ArcLength.totalArcLength c := totalArcLength_nonneg wf
  have hL : 0 < L := lt_of_le_of_lt htotnn hgt
  have hN : (ArcLength.totalArcLength c / L).floor = 0 := by
    have hb : (ArcLength.totalArcLength c / L).floor =
        ⌊ArcLength.totalArcLength c / L⌋ := rfl
    rw [hb, Int.floor_eq_zero_iff]
    constructor
    · exact div_nonneg htotnn (le_of_lt hL)
    · rw [div_lt_one hL]
      exact hgt
  constructor
  · have hunf : ArcLength.partition c L = ArcLength.partitionLoop c
        (ArcLength.segmentLengths c) L ((ArcLength.totalArcLength c / L).floor.toNat + 1)
        (List.replicate ((ArcLength.totalArcLength c / L).floor.toNat + 1) 0) 1
        ((ArcLength.segmentLengths c).getD 0 0) 0 0 := by
      simp only [ArcLength.partition, List.length_replicate]
      rfl
    rw [hunf, hN]
    rw [partitionLoop_stop _ _ _ _ _ _ _ _ _ (by norm_num)]
    rfl
  · show ArcLength.partitionLoopSolverCalls
      ((ArcLength.totalArcLength c / L).floor.toNat + 1) 1 = 0
    rw [hN]
    rw [ArcLength.partitionLoopSolverCalls, dif_neg (by norm_num)]

/-- Witness for C10: piece length 11 exceeds the demonstration curve's total
length 10. -/
theorem partition_degenerate_witness :
    ArcLength.totalArcLength demoCurve < 11 ∧
    (ArcLength.partition demoCurve 11 = [0] ∧
      ArcLength.partitionSolverCalls demoCurve 11 = 0) := by
  have h : ArcLength.totalArcLength demoCurve < 11 := by
    norm_num [ArcLength.totalArcLength, ArcLength.segmentLengths, demoCurve,
      List.range_succ]
  exact ⟨h, partition_degenerate demoCurve_wf h⟩

/-! ### Segment-index monotonicity across partition calls -/

theorem consume_ge : ∀ (lens : List ℚ) i (d rem : ℚ),
    i ≤ (ArcLength.consume lens i d rem).1 := by
  suffices h : ∀ k (lens : List ℚ) i (d rem : ℚ), lens.length - i ≤ k →
      i ≤ (ArcLength.consume lens i d rem).1 by
    exact fun lens i d rem => h (lens.length - i) lens i d rem le_rfl
  intro k
  induction k with
  | zero =>
    intro lens i d rem hk
    rw [ArcLength.consume]
    by_cases h1 : rem < d
    · rw [if_pos h1, dif_neg (by omega)]
      exact Nat.le_succ i
    · rw [if_neg h1]
  | succ k ih =>
    intro lens i d rem hk
    rw [ArcLength.consume]
    by_cases h1 : rem < d
    · rw [if_pos h1]
      by_cases h2 : i + 1 < lens.length
      · rw [dif_pos h2]
        have := ih lens (i + 1) (d - rem) (lens.get ⟨i + 1, h2⟩) (by omega)
        omega
      · rw [dif_neg h2]
        exact Nat.le_succ i
    · rw [if_neg h1]

theorem partitionLoopIndexTrace_stop (spline : Curve) (segLens : List ℚ) (L : ℚ)
    (stop i : ℕ) (rem prev : ℚ) (aIndex : ℕ) (h : ¬ i < stop) :
    ArcLength.partitionLoopIndexTrace spline segLens L stop i rem prev aIndex = [] := by
  rw [ArcLength.partitionLoopIndexTrace, dif_neg h]

theorem partitionLoopIndexTrace_step (spline : Curve) (segLens : List ℚ) (L : ℚ)
    (stop i : ℕ) (rem prev : ℚ) (aIndex : ℕ) (h : i < stop) :
    ArcLength.partitionLoopIndexTrace spline segLens L stop i rem prev aIndex =
      (ArcLength.consume segLens aIndex L rem).1 ::
        ArcLength.partitionLoopIndexTrace spline segLens L stop (i + 1)
          ((ArcLength.consume segLens aIndex L rem).2.2 -
            (ArcLength.consume segLens aIndex L rem).2.1)
          (ArcLengthSolvePrivate.solveSegment spline
            (ArcLength.consume segLens aIndex L rem).1
            (ArcLength.consume segLens aIndex L rem).2.1
            (ArcLength.consume segLens aIndex L rem).2.2
            (if aIndex = (ArcLength.consume segLens aIndex L rem).1 then prev else 0))
          (ArcLength.consume segLens aIndex L rem).1 := by
  rw [ArcLength.partitionLoopIndexTrace, dif_pos h]

theorem partitionLoopIndexTrace_chain (spline : Curve) (segLens : List ℚ) (L : ℚ)
    (stop : ℕ) : ∀ i (rem prev : ℚ) (aIndex : ℕ),
    List.Chain' (· ≤ ·) (aIndex ::
      ArcLength.partitionLoopIndexTrace spline segLens L stop i rem prev aIndex) := by
  suffices h : ∀ k i (rem prev : ℚ) (aIndex : ℕ), stop - i ≤ k →
      List.Chain' (· ≤ ·) (aIndex ::
        ArcLength.partitionLoopIndexTrace spline segLens L stop i rem prev aIndex) by
    exact fun i rem prev aIndex => h (stop - i) i rem prev aIndex le_rfl
  intro k
  induction k with
  | zero =>
    intro i rem prev aIndex hk
    rw [partitionLoopIndexTrace_stop spline segLens L stop i rem prev aIndex (by omega)]
    exact List.chain'_singleton aIndex
  | succ k ih =>
    intro i rem prev aIndex hk
    by_cases h1 : i < stop
    · rw [partitionLoopIndexTrace_step spline segLens L stop i rem prev aIndex h1]
      rw [List.chain'_cons]
      exact ⟨consume_ge segLens aIndex L rem, ih (i + 1) _ _ _ (by omega)⟩
    · rw [partitionLoopIndexTrace_stop spline segLens L stop i rem prev aIndex h1]
      exact List.chain'_singleton aIndex

/-- C9: across a single `partition` (and likewise `partitionN`) call the
current segment index is monotonically non-decreasing, and the full-range
segment lengths are computed exactly once per segment, in index order, by the
table-building pass (the loops only read the precomputed table). -/
theorem partition_index_monotone :
    (∀ (c : Curve) (L : ℚ), List.Chain' (· ≤ ·) (ArcLength.partitionIndexTrace c L)) ∧
    (∀ (c : Curve) (n : ℕ), List.Chain' (· ≤ ·) (ArcLength.partitionNIndexTrace c n)) ∧
    (∀ c : Curve, (ArcLength.segmentLengths c).length = c.segmentCount ∧
      ∀ i (h : i < (ArcLength.segmentLengths c).length),
        (ArcLength.segmentLengths c).get ⟨i, h⟩ = c.segmentArcLength i 0 1) := by
  refine ⟨?_, ?_, ?_⟩
  · intro c L
    exact partitionLoopIndexTrace_chain c (ArcLength.segmentLengths c) L _ 1
      ((ArcLength.segmentLengths c).getD 0 0) 0 0
  · intro c n
    exact partitionLoopIndexTrace_chain c (ArcLength.segmentLengths c)
      (ArcLength.totalArcLength c / (n : ℚ)) n 1
      ((ArcLength.segmentLengths c).getD 0 0) 0 0
  · intro c
    exact ⟨segmentLengths_length c, fun i h => segmentLengths_get c i h⟩
